import Mathlib

/-!
Verification of the ldap Go client library against its specification.

The definitions below are a shallow embedding of the repository's source:

* `filter.go` — the search-filter compiler (`CompileFilter`, `parse`,
  `encodeItem`, `encodeSubStringMatch`, `encodeExtensibleMatch`) and the
  decompiler (`DecompileFilter`).  The Go code drives the scan with five
  anchored regular expressions; here each regex is implemented directly as a
  character-level matching function with the same greedy/backtracking
  semantics.
* `conn.go` — the dispatcher state (message-id counter, correlation table,
  write log) modelled by explicit state passing; `processMessages`,
  `closeAllChannels`, `sendMessage` and `finishMessage` become functions on
  that state.
* `add.go`, `abandon.go`, `compare.go`, `search.go`, `entry.go`,
  `control.go` — the per-operation encoders and result handling used by the
  claims.

BER packets (`github.com/hsoj/asn1-ber` / `mavricknz/asn1-ber`) are modelled
by a tree of class/type/tag plus a value payload; only the operations the
client uses (`Encode`, `NewString`, `NewBoolean`, `NewInteger`,
`AppendChild`, reading `Data`/`Children`) are represented.
-/

/-- Error kinds of the library's `Error` type.  The file declaring the
numeric `ErrorNetwork`, `ErrorFilterCompile`, … constants is not part of the
sources here; the kinds follow the error taxonomy of the spec (§7) and the
`NewError(Error…, …)` call sites visible in the sources.  `resultCode` covers
`NewError(result_code, …)` for non-zero server result codes. -/
inductive ErrorCode where
  | network
  | encoding
  | decoding
  | filterCompile
  | filterDecompile
  | closing
  | debugging
  | invalidArgument
  | resultCode (code : Nat)
deriving DecidableEq, Repr

/-- The library's `Error` value: a kind together with the message of the
wrapped `errors.New(…)`. -/
structure LdapError where
  code : ErrorCode
  msg : String
deriving DecidableEq, Repr

/-- Payload of a BER packet: `ber.Encode(…, nil, …)` carries no value,
`ber.NewString` a string (`Data` holds its bytes), `ber.NewBoolean` a
boolean, `ber.NewInteger` an integer. -/
inductive BerValue where
  | nil
  | str (s : String)
  | bool (b : Bool)
  | int (n : Nat)
  | bytes (bs : List Nat)
deriving DecidableEq, Repr

/-- A BER packet as used by the client: identifier octet components plus the
value payload and child packets. -/
structure BerPacket where
  cls : Nat
  typ : Nat
  tag : Nat
  val : BerValue
  children : List BerPacket
deriving Repr

mutual

/-- Decidable equality of BER packets (hand-written because of the nested
`List BerPacket` field). -/
def berDecEq : (p q : BerPacket) → Decidable (p = q)
  | ⟨c, t, g, v, ch⟩, ⟨c2, t2, g2, v2, ch2⟩ =>
    match Nat.decEq c c2 with
    | isFalse h => isFalse fun he => h (by cases he; rfl)
    | isTrue h1 =>
      match Nat.decEq t t2 with
      | isFalse h => isFalse fun he => h (by cases he; rfl)
      | isTrue h2 =>
        match Nat.decEq g g2 with
        | isFalse h => isFalse fun he => h (by cases he; rfl)
        | isTrue h3 =>
          match instDecidableEqBerValue v v2 with
          | isFalse h => isFalse fun he => h (by cases he; rfl)
          | isTrue h4 =>
            match berDecEqList ch ch2 with
            | isFalse h => isFalse fun he => h (by cases he; rfl)
            | isTrue h5 => isTrue (by subst h1 h2 h3 h4 h5; rfl)

/-- Decidable equality of BER packet lists. -/
def berDecEqList : (xs ys : List BerPacket) → Decidable (xs = ys)
  | [], [] => isTrue rfl
  | [], _ :: _ => isFalse (by intro h; cases h)
  | _ :: _, [] => isFalse (by intro h; cases h)
  | x :: xs, y :: ys =>
    match berDecEq x y with
    | isFalse h => isFalse fun he => h (by cases he; rfl)
    | isTrue h1 =>
      match berDecEqList xs ys with
      | isFalse h => isFalse fun he => h (by cases he; rfl)
      | isTrue h2 => isTrue (by subst h1 h2; rfl)

end

instance : DecidableEq BerPacket := berDecEq

instance {ε α : Type} [DecidableEq ε] [DecidableEq α] : DecidableEq (Except ε α) := fun x y =>
  match x, y with
  | .ok a, .ok b =>
    match decEq a b with
    | isTrue h => isTrue (by rw [h])
    | isFalse h => isFalse (by intro he; cases he; exact h rfl)
  | .error a, .error b =>
    match decEq a b with
    | isTrue h => isTrue (by rw [h])
    | isFalse h => isFalse (by intro he; cases he; exact h rfl)
  | .ok _, .error _ => isFalse (by intro he; cases he)
  | .error _, .ok _ => isFalse (by intro he; cases he)

/-- `ber.ClassUniversal` -/
def ClassUniversal : Nat := 0
/-- `ber.ClassApplication` -/
def ClassApplication : Nat := 64
/-- `ber.ClassContext` -/
def ClassContext : Nat := 128
/-- `ber.TypePrimative` (sic, the library's spelling) -/
def TypePrimative : Nat := 0
/-- `ber.TypeConstructed` -/
def TypeConstructed : Nat := 32
/-- `ber.TagBoolean` -/
def TagBoolean : Nat := 1
/-- `ber.TagInteger` -/
def TagInteger : Nat := 2
/-- `ber.TagOctetString` -/
def TagOctetString : Nat := 4
/-- `ber.TagSequence` -/
def TagSequence : Nat := 16

/-- `ber.Encode(cls, typ, tag, nil, desc)`: a packet with no value and no
children (descriptions are debug-only and are not modelled). -/
def berEncode (cls typ tag : Nat) : BerPacket :=
  { cls := cls, typ := typ, tag := tag, val := .nil, children := [] }

/-- `ber.NewString(cls, typ, tag, s, desc)` -/
def berNewString (cls typ tag : Nat) (s : String) : BerPacket :=
  { cls := cls, typ := typ, tag := tag, val := .str s, children := [] }

/-- `ber.NewBoolean(cls, typ, tag, b, desc)` -/
def berNewBoolean (cls typ tag : Nat) (b : Bool) : BerPacket :=
  { cls := cls, typ := typ, tag := tag, val := .bool b, children := [] }

/-- `ber.NewInteger(cls, typ, tag, n, desc)` -/
def berNewInteger (cls typ tag : Nat) (n : Nat) : BerPacket :=
  { cls := cls, typ := typ, tag := tag, val := .int n, children := [] }

/-- `p.AppendChild(c)` -/
def BerPacket.appendChild (p : BerPacket) (c : BerPacket) : BerPacket :=
  { p with children := p.children ++ [c] }

/-- `ber.DecodeString(p.Data.Bytes())`: the string payload of a
`NewString`-built packet (other packets have empty `Data`). -/
def BerPacket.dataString (p : BerPacket) : String :=
  match p.val with
  | .str s => s
  | _ => ""

/-- Filter tag constants from `filter.go`. -/
def FilterAnd : Nat := 0
/-- `FilterOr` -/
def FilterOr : Nat := 1
/-- `FilterNot` -/
def FilterNot : Nat := 2
/-- `FilterEqualityMatch` -/
def FilterEqualityMatch : Nat := 3
/-- `FilterSubstrings` -/
def FilterSubstrings : Nat := 4
/-- `FilterGreaterOrEqual` -/
def FilterGreaterOrEqual : Nat := 5
/-- `FilterLessOrEqual` -/
def FilterLessOrEqual : Nat := 6
/-- `FilterPresent` -/
def FilterPresent : Nat := 7
/-- `FilterApproxMatch` -/
def FilterApproxMatch : Nat := 8
/-- `FilterExtensibleMatch` -/
def FilterExtensibleMatch : Nat := 9
/-- `FilterSubstringsInitial` -/
def FilterSubstringsInitial : Nat := 0
/-- `FilterSubstringsAny` -/
def FilterSubstringsAny : Nat := 1
/-- `FilterSubstringsFinal` -/
def FilterSubstringsFinal : Nat := 2
/-- `TagMatchingRule` -/
def TagMatchingRule : Nat := 1
/-- `TagMatchingType` -/
def TagMatchingType : Nat := 2
/-- `TagMatchValue` -/
def TagMatchValue : Nat := 3
/-- `TagMatchDnAttributes` -/
def TagMatchDnAttributes : Nat := 4

/-- RE2 character class `\s` (`[\t\n\f\r ]`). -/
def isWS (c : Char) : Bool :=
  c = ' ' || c = '\t' || c = '\n' || c = '\x0c' || c = '\r'

/-- RE2 character class `\d`. -/
def isDigitChar (c : Char) : Bool :=
  '0' ≤ c && c ≤ '9'

/-- RE2 character class `\w` (`[0-9A-Za-z_]`). -/
def isWordChar (c : Char) : Bool :=
  isDigitChar c || ('a' ≤ c && c ≤ 'z') || ('A' ≤ c && c ≤ 'Z') || c = '_'

/-- Character class `[-;.:\d\w]` of the attribute part of `itemRegex`. -/
def isAttrChar (c : Char) : Bool :=
  c = '-' || c = ';' || c = '.' || c = ':' || isDigitChar c || isWordChar c

/-- Character class `[-;\d\w]`, the class of the mandatory last attribute
character in `itemRegex` (and the whole class of `extenseRegex` group 1). -/
def isAttrEndChar (c : Char) : Bool :=
  c = '-' || c = ';' || isDigitChar c || isWordChar c

/-- `\s*`: greedy whitespace skip. -/
def skipWS (s : List Char) : List Char := s.dropWhile isWS

/-- The value part `((?:\\.|[^\\()]+)*)` of `itemRegex`: the longest prefix
made of `\x` escapes (RE2 `.` does not match a newline) and characters other
than backslash and parentheses.  Returns the captured value and the rest.
Longest-match is faithful here: giving units back can never make the
following `\)` of the regex match (see the proofs below). -/
def valScan : List Char → List Char × List Char
  | [] => ([], [])
  | c :: r =>
    if c = '\\' then
      match r with
      | [] => ([], c :: r)
      | d :: r2 =>
        if d = '\n' then ([], c :: r)
        else
          let vr := valScan r2
          (c :: d :: vr.1, vr.2)
    else if c = '(' || c = ')' then ([], c :: r)
    else
      let vr := valScan r
      (c :: vr.1, vr.2)

/-- `wildCardSearchRegex` = `^((\\.|[^\\*]+)*)\*`: the characters standing
before the first unescaped `*`, or `none` when no unescaped `*` follows a
well-formed escape sequence.  `unescapedWildCardRegex` matches exactly when
this is `some`. -/
def wildPrefix : List Char → Option (List Char)
  | [] => none
  | c :: r =>
    if c = '*' then some []
    else if c = '\\' then
      match r with
      | [] => none
      | d :: r2 =>
        if d = '\n' then none
        else (wildPrefix r2).map (fun p => c :: d :: p)
    else (wildPrefix r).map (fun p => c :: p)

/-- `unescapedWildCardRegex.Match(value)` -/
def hasUnescapedWildcard (v : List Char) : Bool :=
  (wildPrefix v).isSome

/-- `opRegex` = `^\(\s*([&!|])\s*`: an opening parenthesis, optional
whitespace, one combinator character, optional whitespace.  Returns the
combinator and the unconsumed rest. -/
def opMatch : List Char → Option (Char × List Char)
  | '(' :: r =>
    match skipWS r with
    | c :: r2 =>
      if c = '&' || c = '!' || c = '|' then some (c, skipWS r2) else none
    | [] => none
  | _ => none

/-- `endRegex` = `^\)\s*`. -/
def endMatch : List Char → Option (List Char)
  | ')' :: r => some (skipWS r)
  | _ => none

/-- The operator part `([:~<>]?=)` of `itemRegex`, greedy on the optional
first character. -/
def opSymMatch : List Char → Option (String × List Char)
  | [] => none
  | c :: r =>
    if c = '=' then some ("=", r)
    else if c = ':' || c = '~' || c = '<' || c = '>' then
      match r with
      | '=' :: r2 => some (String.mk [c, '='], r2)
      | _ => none
    else none

/-- The part of `itemRegex` after the attribute capture:
`\s*([:~<>]?=)((?:\\.|[^\\()]+)*)\)\s*`.  Returns operator, value and rest. -/
def itemRest (s : List Char) : Option (String × String × List Char) :=
  match opSymMatch (skipWS s) with
  | none => none
  | some (op, r2) =>
    let v := (valScan r2).1
    match (valScan r2).2 with
    | ')' :: r4 => some (op, String.mk v, skipWS r4)
    | _ => none

/-- Backtracking over the greedy attribute capture
`([-;.:\d\w]*[-;\d\w])` of `itemRegex`: candidate captures are the prefixes
of the maximal `[-;.:\d\w]` run whose final character lies in `[-;\d\w]`,
tried longest first; for each candidate the remainder of the regex must
match the rest of the input. -/
def attrBacktrack (run restAfter : List Char) : Nat → Option (String × String × String × List Char)
  | 0 => none
  | k + 1 =>
    let tail :=
      if hk : k < run.length then
        if isAttrEndChar (run.get ⟨k, hk⟩) then
          match itemRest (run.drop (k + 1) ++ restAfter) with
          | some (op, v, rest) => some (String.mk (run.take (k + 1)), op, v, rest)
          | none => none
        else none
      else none
    match tail with
    | some res => some res
    | none => attrBacktrack run restAfter k

/-- `itemRegex` =
`^\(\s*([-;.:\d\w]*[-;\d\w])\s*([:~<>]?=)((?:\\.|[^\\()]+)*)\)\s*`.
Returns (attribute, operator, value, rest). -/
def itemMatch : List Char → Option (String × String × String × List Char)
  | '(' :: r =>
    let r1 := skipWS r
    let run := r1.takeWhile isAttrChar
    attrBacktrack run (r1.dropWhile isAttrChar) run.length
  | _ => none

/-- Every character is a word character (`\w+` anchored). -/
def allWordChars (s : List Char) : Bool := s.all isWordChar

/-- Every character is a dot or digit (`[.\d]+` anchored). -/
def allDotDigit (s : List Char) : Bool := s.all (fun c => c = '.' || isDigitChar c)

/-- The `(:(\w+|[.\d]+))?$` tail of `extenseRegex`: either the remainder is
empty, or it is a colon followed by a non-empty all-word or all-dot-digit
rule (the capture of group 4). -/
def extgThree (rem2 : List Char) : Option (List Char) :=
  match rem2 with
  | [] => some []
  | ':' :: t =>
    if t ≠ [] && (allWordChars t || allDotDigit t) then some t else none
  | _ => none

/-- The `(:dn)?(:(\w+|[.\d]+))?$` tail of `extenseRegex`, preferring the
`:dn` alternative first (greedy `?`).  Returns the dn flag and the rule. -/
def extTail (rem : List Char) : Option (Bool × List Char) :=
  match rem with
  | ':' :: 'd' :: 'n' :: rem2 =>
    match extgThree rem2 with
    | some rule => some (true, rule)
    | none => (extgThree rem).map (fun rule => (false, rule))
  | _ => (extgThree rem).map (fun rule => (false, rule))

/-- `extenseRegex` = `^([-;\d\w]*)(:dn)?(:(\w+|[.\d]+))?$` applied to the
attribute of an extensible-match item.  Group 1 is the maximal leading
`[-;\d\w]` run: any shorter greedy candidate leaves a leading `[-;\d\w]`
character in the remainder, which the anchored tail always rejects, so no
group-1 backtracking can succeed where the maximal run fails.  Returns
(type, dn flag, rule). -/
def extenseMatch (attr : List Char) : Option (List Char × Bool × List Char) :=
  let run := attr.takeWhile isAttrEndChar
  (extTail (attr.drop run.length)).map (fun dr => (run, dr.1, dr.2))

/-- `encodeExtensibleMatch(attr, value)` from `filter.go`. -/
def encodeExtensibleMatch (attr value : String) : Except LdapError BerPacket :=
  match extenseMatch attr.toList with
  | none => .error ⟨.filterCompile, "Invalid Extensible attr : " ++ attr⟩
  | some (rtype, dn, rule) =>
    let p := berEncode ClassContext TypeConstructed FilterExtensibleMatch
    let p := if rule ≠ [] then
        p.appendChild (berNewString ClassContext TypePrimative TagMatchingRule (String.mk rule))
      else p
    let p := if rtype ≠ [] then
        p.appendChild (berNewString ClassContext TypePrimative TagMatchingType (String.mk rtype))
      else p
    let p := p.appendChild (berNewString ClassContext TypePrimative TagMatchValue value)
    let p := if dn then
        p.appendChild (berNewBoolean ClassContext TypePrimative TagMatchDnAttributes true)
      else p
    .ok p

/-- A `some` result of `wildPrefix` is a strict prefix: the unescaped `*`
itself is also consumed by the regex match. -/
theorem wildPrefix_length_lt : ∀ v p, wildPrefix v = some p → p.length < v.length := by
  have key : ∀ n v p, v.length ≤ n → wildPrefix v = some p → p.length < v.length := by
    intro n
    induction n with
    | zero =>
      intro v p hv hp
      have hv0 : v = [] := List.length_eq_zero.mp (Nat.le_zero.mp hv)
      subst hv0
      simp [wildPrefix] at hp
    | succ n ih =>
      intro v p hv hp
      cases v with
      | nil => simp [wildPrefix] at hp
      | cons c r =>
        cases r with
        | nil =>
          simp only [wildPrefix] at hp
          by_cases h1 : c = '*'
          · rw [if_pos h1] at hp
            cases hp
            simp
          · rw [if_neg h1] at hp
            by_cases h2 : c = '\\'
            · rw [if_pos h2] at hp
              simp at hp
            · rw [if_neg h2] at hp
              simp [wildPrefix] at hp
        | cons d r2 =>
          simp only [wildPrefix] at hp
          by_cases h1 : c = '*'
          · rw [if_pos h1] at hp
            cases hp
            simp
          · rw [if_neg h1] at hp
            by_cases h2 : c = '\\'
            · rw [if_pos h2] at hp
              by_cases h3 : d = '\n'
              · rw [if_pos h3] at hp
                simp at hp
              · rw [if_neg h3] at hp
                rcases hq : wildPrefix r2 with _ | q
                · rw [hq] at hp
                  simp at hp
                · rw [hq] at hp
                  simp only [Option.map_some'] at hp
                  cases hp
                  have hlen : r2.length ≤ n := by
                    simp only [List.length_cons] at hv
                    omega
                  have := ih r2 q hlen hq
                  simp only [List.length_cons]
                  omega
            · rw [if_neg h2] at hp
              rcases hq : wildPrefix (d :: r2) with _ | q
              · rw [hq] at hp
                simp at hp
              · rw [hq] at hp
                simp only [Option.map_some'] at hp
                cases hp
                have hlen : (d :: r2).length ≤ n := by
                  simp only [List.length_cons] at hv ⊢
                  omega
                have := ih (d :: r2) q hlen hq
                simp only [List.length_cons] at this ⊢
                omega
  intro v p hp
  exact key v.length v p (Nat.le_refl _) hp

/-- The `encodeSubStringMatch` scan loop of `filter.go`: repeatedly match
`wildCardSearchRegex` against the unconsumed value, emitting an initial
segment on the first round and any-segments afterwards; when no further
unescaped `*` exists, a non-empty remainder becomes the final segment.  A
failure to match on the very first round is a compile error. -/
def subLoopF : Nat → List Char → Bool → List BerPacket → Except LdapError (List BerPacket)
  | 0, _, _, _ => .error ⟨.filterCompile, "Did not match filter."⟩
  | fuel + 1, v, first, acc =>
    match wildPrefix v with
    | none =>
      if first then .error ⟨.filterCompile, "Did not match filter."⟩
      else if v ≠ [] then
        .ok (acc ++ [berNewString ClassContext TypePrimative FilterSubstringsFinal (String.mk v)])
      else .ok acc
    | some p =>
      let acc2 :=
        if first && p ≠ [] then
          acc ++ [berNewString ClassContext TypePrimative FilterSubstringsInitial (String.mk p)]
        else if !first && p ≠ [] then
          acc ++ [berNewString ClassContext TypePrimative FilterSubstringsAny (String.mk p)]
        else acc
      let v2 := v.drop (p.length + 1)
      if v2 = [] then .ok acc2
      else subLoopF fuel v2 false acc2

/-- The scan loop entered with enough fuel: every iteration consumes at
least one character of the value, so `v.length + 1` steps always reach a
return of the Go loop. -/
def subLoop (v : List Char) (first : Bool) (acc : List BerPacket) : Except LdapError (List BerPacket) :=
  subLoopF (v.length + 1) v first acc

/-- `encodeSubStringMatch(attr, value)` from `filter.go`: a context
constructed packet tagged `FilterSubstrings` holding the attribute and the
sequence of substring segments. -/
def encodeSubStringMatch (attr value : String) : Except LdapError BerPacket :=
  match subLoop value.toList true [] with
  | .error e => .error e
  | .ok segs =>
    .ok { cls := ClassContext, typ := TypeConstructed, tag := FilterSubstrings, val := .nil,
          children := [berNewString ClassUniversal TypePrimative TagOctetString attr,
                       { cls := ClassUniversal, typ := TypeConstructed, tag := TagSequence,
                         val := .nil, children := segs }] }

/-- The `FilterComponent` operator→tag map of `filter.go` (a missing key
yields Go's zero value). -/
def FilterComponent (op : String) : Nat :=
  if op = "&" then FilterAnd
  else if op = "|" then FilterOr
  else if op = "!" then FilterNot
  else if op = "=" then FilterEqualityMatch
  else if op = ">=" then FilterGreaterOrEqual
  else if op = "<=" then FilterLessOrEqual
  else if op = "~=" then FilterApproxMatch
  else 0

/-- `encodeItem([attr, op, val])` from `filter.go`: extensible match for
`:=`; for `=` a literal `*` value becomes Present and a value containing an
unescaped `*` becomes Substrings; otherwise an attribute-value assertion
with the operator's filter tag. -/
def encodeItem (attr op v : String) : Except LdapError BerPacket :=
  if op = ":=" then encodeExtensibleMatch attr v
  else if op = "=" && v = "*" then
    .ok (berNewString ClassContext TypePrimative FilterPresent attr)
  else if op = "=" && hasUnescapedWildcard v.toList then
    encodeSubStringMatch attr v
  else
    .ok { cls := ClassContext, typ := TypeConstructed, tag := FilterComponent op, val := .nil,
          children := [berNewString ClassUniversal TypePrimative TagOctetString attr,
                       berNewString ClassUniversal TypePrimative TagOctetString v] }

/-- `encode(FilterComponent[c], nil)` for a combinator character `&`, `|`,
`!`. -/
def encodeComb (c : Char) : BerPacket :=
  if c = '&' then berEncode ClassContext TypeConstructed FilterAnd
  else if c = '|' then berEncode ClassContext TypeConstructed FilterOr
  else berEncode ClassContext TypeConstructed FilterNot

/-- The item branch of `parse`: an item with no enclosing combinator becomes
the root; otherwise it is appended as a child of the top of the stack. -/
def pushItem (item : BerPacket) : List BerPacket → List BerPacket
  | [] => [item]
  | t :: rest => t.appendChild item :: rest

/-- The close-parenthesis branch of `parse`: the top frame is attached as a
child of the frame below it; a single remaining frame stays as it is. -/
def popStack : List BerPacket → List BerPacket
  | t :: u :: rest => u.appendChild t :: rest
  | s => s

/-- `skipWS` never lengthens the input. -/
theorem skipWS_length_le (s : List Char) : (skipWS s).length ≤ s.length :=
  (List.dropWhile_sublist isWS).length_le

/-- A successful `opMatch` strictly consumes input. -/
theorem opMatch_lt : ∀ s c rest, opMatch s = some (c, rest) → rest.length < s.length := by
  intro s c rest h
  rw [opMatch.eq_def] at h
  split at h
  · rename_i r
    split at h
    · rename_i c2 r2 hw
      split at h
      · cases h
        have h1 : (skipWS r).length ≤ r.length := skipWS_length_le r
        rw [hw] at h1
        have h2 : (skipWS r2).length ≤ r2.length := skipWS_length_le r2
        simp only [List.length_cons] at h1 ⊢
        omega
      · cases h
    · cases h
  · cases h

/-- A successful `endMatch` strictly consumes input. -/
theorem endMatch_lt : ∀ s rest, endMatch s = some rest → rest.length < s.length := by
  intro s rest h
  rw [endMatch.eq_def] at h
  split at h
  · rename_i r
    cases h
    have h1 : (skipWS r).length ≤ r.length := skipWS_length_le r
    simp only [List.length_cons]
    omega
  · cases h

/-- A successful `opSymMatch` strictly consumes input. -/
theorem opSymMatch_lt : ∀ s op rest, opSymMatch s = some (op, rest) → rest.length < s.length := by
  intro s op rest h
  match s with
  | [] => simp [opSymMatch] at h
  | c :: r =>
    rw [opSymMatch.eq_def] at h
    split at h
    · rename_i heq
      cases heq
    · rename_i c2 r2 heq
      cases heq
      split at h
      · cases h
        simp only [List.length_cons]
        omega
      · split at h
        · split at h
          · cases h
            simp only [List.length_cons]
            omega
          · cases h
        · cases h

/-- `valScan` never produces a longer rest than its input. -/
theorem valScan_rest_le : ∀ s, (valScan s).2.length ≤ s.length := by
  have key : ∀ n s, s.length ≤ n → (valScan s).2.length ≤ s.length := by
    intro n
    induction n with
    | zero =>
      intro s hs
      have hs0 : s = [] := List.length_eq_zero.mp (Nat.le_zero.mp hs)
      subst hs0
      simp [valScan]
    | succ n ih =>
      intro s hs
      cases s with
      | nil => simp [valScan]
      | cons c r =>
        cases r with
        | nil =>
          simp only [valScan]
          split_ifs <;> simp
        | cons d r2 =>
          simp only [valScan]
          split_ifs with h1 h2 h3
          · simp
          · have : r2.length ≤ n := by
              simp only [List.length_cons] at hs
              omega
            have := ih r2 this
            simp only [List.length_cons]
            omega
          · simp
          · have : (d :: r2).length ≤ n := by
              simp only [List.length_cons] at hs ⊢
              omega
            have := ih (d :: r2) this
            simp only [List.length_cons] at this ⊢
            omega
  intro s
  exact key s.length s (Nat.le_refl _)

/-- A successful `itemRest` strictly consumes input. -/
theorem itemRest_lt : ∀ s op v rest, itemRest s = some (op, v, rest) → rest.length < s.length := by
  intro s op v rest h
  rw [itemRest] at h
  split at h
  · cases h
  · rename_i op2 r2 hop
    split at h
    · rename_i r4 hval
      cases h
      have h1 : (skipWS r4).length ≤ r4.length := skipWS_length_le r4
      have h2 : (valScan r2).2.length ≤ r2.length := valScan_rest_le r2
      rw [hval] at h2
      have h3 : r2.length < (skipWS s).length := opSymMatch_lt _ _ _ hop
      have h4 : (skipWS s).length ≤ s.length := skipWS_length_le s
      simp only [List.length_cons] at h2
      omega
    · cases h

/-- A successful `attrBacktrack` leaves fewer characters than the attribute
run plus the rest it was given. -/
theorem attrBacktrack_lt : ∀ k run restAfter a o v rest,
    attrBacktrack run restAfter k = some (a, o, v, rest) →
    rest.length < run.length + restAfter.length := by
  intro k
  induction k with
  | zero =>
    intro run restAfter a o v rest h
    simp [attrBacktrack] at h
  | succ k ih =>
    intro run restAfter a o v rest h
    rw [attrBacktrack] at h
    split at h
    · rename_i res htail
      cases h
      split at htail
      · rename_i hk
        split at htail
        · split at htail
          · rename_i op2 v2 rest2 hrest
            cases htail
            have h1 := itemRest_lt _ _ _ _ hrest
            rw [List.length_append, List.length_drop] at h1
            omega
          · cases htail
        · cases htail
      · cases htail
    · exact ih run restAfter a o v rest h

/-- A successful `itemMatch` strictly consumes input. -/
theorem itemMatch_lt : ∀ s a o v rest, itemMatch s = some (a, o, v, rest) → rest.length < s.length := by
  intro s a o v rest h
  rw [itemMatch.eq_def] at h
  split at h
  · rename_i r
    have h1 := attrBacktrack_lt _ _ _ _ _ _ _ h
    have h2 : ((skipWS r).takeWhile isAttrChar).length + ((skipWS r).dropWhile isAttrChar).length
        = (skipWS r).length := by
      rw [← List.length_append, List.takeWhile_append_dropWhile]
    have h3 : (skipWS r).length ≤ r.length := skipWS_length_le r
    simp only [List.length_cons]
    omega
  · cases h

/-- The stack-driven scan of `parse` from `filter.go`: at each position try
the combinator-open pattern, then the close-parenthesis pattern, then the
leaf-item pattern; opening a combinator pushes a frame, an item attaches to
the top frame (or becomes the root), a close pops.  When no pattern
matches, leftover text is a compile error and otherwise the bottom of the
stack (`p[0]`) is the result.  A close with no matching open is the
"extra at end" compile error.  (The `p[0]` access on an empty stack cannot
be reached from `CompileFilter`; Go would panic there.) -/
def parseLoopF (f : String) : Nat → List Char → List BerPacket → Nat → Except LdapError BerPacket
  | 0, _, _, _ => .error ⟨.filterCompile, "out of fuel"⟩
  | fuel + 1, s, stack, bc =>
    match opMatch s with
    | some cr => parseLoopF f fuel cr.2 (encodeComb cr.1 :: stack) (bc + 1)
    | none =>
      match endMatch s with
      | some rest =>
        if bc = 0 then
          .error ⟨.filterCompile, "Finished compiling filter with extra at end :" ++ String.mk s⟩
        else parseLoopF f fuel rest (popStack stack) (bc - 1)
      | none =>
        match itemMatch s with
        | some iov =>
          match encodeItem iov.1 iov.2.1 iov.2.2.1 with
          | .error e => .error e
          | .ok item => parseLoopF f fuel iov.2.2.2 (pushItem item stack) bc
        | none =>
          if s = [] then
            match stack.getLast? with
            | some root => .ok root
            | none => .error ⟨.filterCompile, "panic: runtime error: index out of range"⟩
          else
            .error ⟨.filterCompile, f ++ " : Error compiling filter, invalid filter : " ++ String.mk s⟩

/-- The scan entered with enough fuel: every match consumes at least one
character, so `s.length + 1` steps always reach a return of the Go loop. -/
def parseLoop (f : String) (s : List Char) (stack : List BerPacket) (bc : Nat) :
    Except LdapError BerPacket :=
  parseLoopF f (s.length + 1) s stack bc

/-- `CompileFilter(filter)` from `filter.go`. -/
def CompileFilter (f : String) : Except LdapError BerPacket :=
  if f.toList.length = 0 then .error ⟨.filterCompile, "Filter of zero length"⟩
  else if f.toList.head? ≠ some '(' then
    .error ⟨.filterCompile, "Filter does not start with '('"⟩
  else parseLoop f f.toList [] 0

mutual

/-- `DecompileFilter(packet)` from `filter.go`.  The Go function wraps its
body in a `recover` that turns any panic (an out-of-range child access on a
malformed tree) into a filter-decompile error; the panicking accesses are
modelled by explicit shape checks returning that error.  Note that only the
first child of a Not node and only the first substring segment are ever
emitted, and that an extensible-match node (or an unknown tag) produces
just `()` — the switch has no code for those cases. -/
def decompileFilter : BerPacket → Except LdapError String
  | ⟨_, _, 0, _, ch⟩ =>
    match decompileList ch with
    | .error e => .error e
    | .ok s => .ok ("(&" ++ s ++ ")")
  | ⟨_, _, 1, _, ch⟩ =>
    match decompileList ch with
    | .error e => .error e
    | .ok s => .ok ("(|" ++ s ++ ")")
  | ⟨_, _, 2, _, ch⟩ =>
    match ch with
    | c :: _ =>
      match decompileFilter c with
      | .error e => .error e
      | .ok s => .ok ("(!" ++ s ++ ")")
    | [] => .error ⟨.filterDecompile, "Error decompiling filter"⟩
  | ⟨_, _, 3, _, ch⟩ =>
    match ch with
    | a :: b :: _ => .ok ("(" ++ a.dataString ++ "=" ++ b.dataString ++ ")")
    | _ => .error ⟨.filterDecompile, "Error decompiling filter"⟩
  | ⟨_, _, 4, _, ch⟩ =>
    match ch with
    | a :: b :: _ =>
      match b.children with
      | seg :: _ =>
        if seg.tag = 0 then .ok ("(" ++ a.dataString ++ "=" ++ seg.dataString ++ "*)")
        else if seg.tag = 1 then .ok ("(" ++ a.dataString ++ "=*" ++ seg.dataString ++ "*)")
        else if seg.tag = 2 then .ok ("(" ++ a.dataString ++ "=*" ++ seg.dataString ++ ")")
        else .ok ("(" ++ a.dataString ++ "=" ++ ")")
      | [] => .error ⟨.filterDecompile, "Error decompiling filter"⟩
    | _ => .error ⟨.filterDecompile, "Error decompiling filter"⟩
  | ⟨_, _, 5, _, ch⟩ =>
    match ch with
    | a :: b :: _ => .ok ("(" ++ a.dataString ++ ">=" ++ b.dataString ++ ")")
    | _ => .error ⟨.filterDecompile, "Error decompiling filter"⟩
  | ⟨_, _, 6, _, ch⟩ =>
    match ch with
    | a :: b :: _ => .ok ("(" ++ a.dataString ++ "<=" ++ b.dataString ++ ")")
    | _ => .error ⟨.filterDecompile, "Error decompiling filter"⟩
  | ⟨_, _, 7, v, _⟩ =>
    .ok ("(" ++ (BerPacket.dataString ⟨0, 0, 7, v, []⟩) ++ "=*)")
  | ⟨_, _, 8, _, ch⟩ =>
    match ch with
    | a :: b :: _ => .ok ("(" ++ a.dataString ++ "~=" ++ b.dataString ++ ")")
    | _ => .error ⟨.filterDecompile, "Error decompiling filter"⟩
  | ⟨_, _, _, _, _⟩ => .ok "()"

/-- The child loop of the And/Or cases of `DecompileFilter`: concatenate the
decompilations of all children, propagating the first error. -/
def decompileList : List BerPacket → Except LdapError String
  | [] => .ok ""
  | c :: rest =>
    match decompileFilter c with
    | .error e => .error e
    | .ok s =>
      match decompileList rest with
      | .error e => .error e
      | .ok s2 => .ok (s ++ s2)

end

mutual

/-- The character sequence `DecompileFilter` produces on a well-shaped tree
(the success path of `decompileFilter`, as a total function on characters;
`decompileFilter` returns `String.mk` of this). -/
def printFilterL : BerPacket → List Char
  | ⟨_, _, 0, _, ch⟩ => '(' :: '&' :: (printListL ch ++ [')'])
  | ⟨_, _, 1, _, ch⟩ => '(' :: '|' :: (printListL ch ++ [')'])
  | ⟨_, _, 2, _, ch⟩ =>
    match ch with
    | c :: _ => '(' :: '!' :: (printFilterL c ++ [')'])
    | [] => ['(', ')']
  | ⟨_, _, 3, _, ch⟩ =>
    match ch with
    | a :: b :: _ => '(' :: (a.dataString.toList ++ '=' :: (b.dataString.toList ++ [')']))
    | _ => ['(', ')']
  | ⟨_, _, 4, _, ch⟩ =>
    match ch with
    | a :: b :: _ =>
      match b.children with
      | seg :: _ =>
        if seg.tag = 0 then
          '(' :: (a.dataString.toList ++ '=' :: ((seg.dataString.toList ++ ['*']) ++ [')']))
        else if seg.tag = 1 then
          '(' :: (a.dataString.toList ++ '=' :: (('*' :: (seg.dataString.toList ++ ['*'])) ++ [')']))
        else if seg.tag = 2 then
          '(' :: (a.dataString.toList ++ '=' :: (('*' :: seg.dataString.toList) ++ [')']))
        else '(' :: (a.dataString.toList ++ '=' :: [')'])
      | [] => ['(', ')']
    | _ => ['(', ')']
  | ⟨_, _, 5, _, ch⟩ =>
    match ch with
    | a :: b :: _ => '(' :: (a.dataString.toList ++ '>' :: '=' :: (b.dataString.toList ++ [')']))
    | _ => ['(', ')']
  | ⟨_, _, 6, _, ch⟩ =>
    match ch with
    | a :: b :: _ => '(' :: (a.dataString.toList ++ '<' :: '=' :: (b.dataString.toList ++ [')']))
    | _ => ['(', ')']
  | ⟨_, _, 7, v, _⟩ =>
    '(' :: ((BerPacket.dataString ⟨0, 0, 7, v, []⟩).toList ++ '=' :: ('*' :: [')']))
  | ⟨_, _, 8, _, ch⟩ =>
    match ch with
    | a :: b :: _ => '(' :: (a.dataString.toList ++ '~' :: '=' :: (b.dataString.toList ++ [')']))
    | _ => ['(', ')']
  | ⟨_, _, _, _, _⟩ => ['(', ')']

/-- Concatenation of the printed children. -/
def printListL : List BerPacket → List Char
  | [] => []
  | c :: rest => printFilterL c ++ printListL rest

end

/-- A well-formed substring-filter segment string: non-empty sequences of
`\x` escapes and plain characters that are not `\`, `*`, `(` or `)` — the
shape every segment produced by `encodeSubStringMatch` from an
`itemRegex`-accepted value has. -/
def goodSeg : List Char → Bool
  | [] => true
  | c :: r =>
    if c = '\\' then
      match r with
      | [] => false
      | d :: r2 => decide (d ≠ '\n') && goodSeg r2
    else !(c = '*' || c = '(' || c = ')') && goodSeg r

/-- A string the value part of `itemRegex` accepts in full: sequences of
`\x` escapes and plain characters that are not `\`, `(` or `)`. -/
def goodVal : List Char → Bool
  | [] => true
  | c :: r =>
    if c = '\\' then
      match r with
      | [] => false
      | d :: r2 => decide (d ≠ '\n') && goodVal r2
    else !(c = '(' || c = ')') && goodVal r

/-- A string the attribute part of `itemRegex` captures in full: non-empty,
all characters in `[-;.:\d\w]`, the last in `[-;\d\w]`. -/
def goodAttr (s : List Char) : Bool :=
  !s.isEmpty && s.all isAttrChar &&
    (match s.getLast? with
     | some c => isAttrEndChar c
     | none => false)

/-- The two operand leaves of a comparison node, exactly as `encodeItem`
builds them. -/
def avaOK (ch : List BerPacket) : Bool :=
  match ch with
  | [⟨0, 0, 4, .str a, []⟩, ⟨0, 0, 4, .str w, []⟩] => goodAttr a.toList && goodVal w.toList
  | _ => false

/-- The operand leaves of an equality node: additionally the value is
neither the literal `*` nor wildcarded. -/
def avaOK3 (ch : List BerPacket) : Bool :=
  match ch with
  | [⟨0, 0, 4, .str a, []⟩, ⟨0, 0, 4, .str w, []⟩] =>
    goodAttr a.toList && goodVal w.toList && !(w = "*") && !hasUnescapedWildcard w.toList
  | _ => false

/-- A substrings node's children with exactly one well-formed segment. -/
def subOK (ch : List BerPacket) : Bool :=
  match ch with
  | [⟨0, 0, 4, .str a, []⟩, ⟨0, 32, 16, .nil, [⟨128, 0, t, .str s, []⟩]⟩] =>
    goodAttr a.toList && (t = 0 || t = 1 || t = 2) && !(s = "") && goodSeg s.toList
  | _ => false

mutual

/-- Well-shaped compiled filter trees, exactly the shapes for which
decompilation is a faithful inverse: combinator nodes as `encode` builds
them with well-shaped children, a Not node with exactly one child, an
attribute-value assertion with exactly its two operand leaves (the value of
an equality being neither `*` nor wildcarded), a substrings node with
exactly one well-formed segment, a Present leaf — and no extensible-match
node. -/
def roundOK : BerPacket → Bool
  | ⟨c, ty, g, v, ch⟩ =>
    if c = 128 ∧ ty = 32 ∧ v = .nil then
      if g = 0 ∨ g = 1 then roundOKList ch
      else if g = 2 then
        match ch with
        | [x] => roundOK x
        | _ => false
      else if g = 3 then avaOK3 ch
      else if g = 4 then subOK ch
      else if g = 5 ∨ g = 6 ∨ g = 8 then avaOK ch
      else false
    else if c = 128 ∧ ty = 0 ∧ g = 7 ∧ ch = [] then
      match v with
      | .str a => goodAttr a.toList
      | _ => false
    else false

/-- All trees in the list are well-shaped. -/
def roundOKList : List BerPacket → Bool
  | [] => true
  | c :: rest => roundOK c && roundOKList rest

end

/-- `EntryAttribute` from `search.go`/`entry.go`: a name and its ordered
values. -/
structure EntryAttribute where
  name : String
  values : List String
deriving DecidableEq, Repr

/-- `Entry` from `search.go`/`entry.go`: a DN and its ordered attributes. -/
structure Entry where
  dn : String
  attributes : List EntryAttribute
deriving DecidableEq, Repr

/-- The lookup loop of `Entry.GetAttributeValues`: the values of the first
attribute whose stored name equals the queried name exactly, else `[]`. -/
def lookupAttr : List EntryAttribute → String → List String
  | [], _ => []
  | a :: rest, attrName => if a.name = attrName then a.values else lookupAttr rest attrName

/-- `(e *Entry) GetAttributeValues(Attribute)` from `entry.go` (the copy in
`search.go` is identical). -/
def Entry.GetAttributeValues (e : Entry) (attrName : String) : List String :=
  lookupAttr e.attributes attrName

/-- `(e *Entry) GetAttributeValue(Attribute)`: the first value, or `""` when
there are none. -/
def Entry.GetAttributeValue (e : Entry) (attrName : String) : String :=
  match e.GetAttributeValues attrName with
  | [] => ""
  | v :: _ => v

/-- `ControlTypePaging` from `control.go`. -/
def ControlTypePaging : String := "1.2.840.113556.1.4.319"

/-- The `Control` implementations of `control.go` that the claims need:
`ControlPaging` (size is a uint32, cookie opaque bytes) and the generic
`ControlString`. -/
inductive Control where
  | paging (size : Nat) (cookie : List Nat)
  | str (controlType : String) (criticality : Bool) (controlValue : String)
deriving DecidableEq, Repr

/-- `GetControlType()` of each variant. -/
def Control.getControlType : Control → String
  | .paging _ _ => ControlTypePaging
  | .str t _ _ => t

/-- `FindControl(Controls, ControlType)` from `control.go`: the first
control with the given type. -/
def FindControl : List Control → String → Option Control
  | [], _ => none
  | c :: rest, t => if c.getControlType = t then some c else FindControl rest t

/-- `SearchResult` from `search.go`. -/
structure SearchResult where
  entries : List Entry
  referrals : List String
  controls : List Control
deriving DecidableEq, Repr

/-- One iteration appends the page's entries, referrals and controls to the
accumulator (`SearchWithPaging`'s three append loops). -/
def accumulatePage (acc result : SearchResult) : SearchResult :=
  { entries := acc.entries ++ result.entries,
    referrals := acc.referrals ++ result.referrals,
    controls := acc.controls ++ result.controls }

/-- The `for` loop of `SearchWithPaging` from `search.go`, driven by a stub
server (`server i` is the response to the i-th issued request; the source
returns early on a `Search` error, and the stub never fails).  State:
accumulated result, the paging control's current size and cookie, and the
log of (size, cookie) pairs sent so far.  Returns the final accumulator, the
request log, and the paging control still referenced after the loop (`nil`
on both break paths, since both assign `PagingControl = nil` before
breaking).  `none` stands for exhausted fuel, or for the panic Go's
`.(*ControlPaging)` type assertion raises when a non-paging control carries
the paging OID. -/
def searchWithPagingLoop (server : Nat → SearchResult) :
    Nat → SearchResult → Nat → List Nat → List (Nat × List Nat) →
    Option (SearchResult × List (Nat × List Nat) × Option (Nat × List Nat))
  | 0, _, _, _, _ => none
  | fuel + 1, acc, size, cookie, log =>
    let result := server log.length
    let log2 := log ++ [(size, cookie)]
    let acc2 := accumulatePage acc result
    match FindControl result.controls ControlTypePaging with
    | none => some (acc2, log2, none)
    | some (.paging _ ck) =>
      if ck = [] then some (acc2, log2, none)
      else searchWithPagingLoop server fuel acc2 size ck log2
    | some (.str _ _ _) => none

/-- `SearchWithPaging(request, PagingSize)` from `search.go` against a stub
server: run the loop starting from `NewControlPaging(PagingSize)` (empty
cookie) and an empty accumulator; afterwards, if the loop still held a
paging control, issue one more request with `PagingSize = 0` and discard its
result.  The model returns the accumulated result and the log of issued
(size, cookie) requests. -/
def SearchWithPaging (server : Nat → SearchResult) (pagingSize : Nat) (fuel : Nat) :
    Option (SearchResult × List (Nat × List Nat)) :=
  match searchWithPagingLoop server fuel ⟨[], [], []⟩ pagingSize [] [] with
  | none => none
  | some (res, log, none) => some (res, log)
  | some (res, log, some pc) => some (res, log ++ [(0, pc.2)])

/-- 2^64: the modulus of Go's `uint64` message-id counter. -/
def UINT64_MOD : Nat := 2 ^ 64

/-- The dispatcher-owned connection state: the `message_id` counter of
`processMessages` (starting at 1), the correlation table `chanResults` (as
the ordered list of live message IDs), the packets written to the socket,
and whether the connection is still up (`chanProcessMessage` non-nil /
`connected`). -/
structure DispatchState where
  nextId : Nat
  chanResults : List Nat
  written : List BerPacket
  connected : Bool
deriving DecidableEq, Repr

/-- The state right after `Connect`: counter at 1, no pending messages,
nothing written. -/
def initialDispatchState : DispatchState :=
  { nextId := 1, chanResults := [], written := [], connected := true }

/-- `nextMessageID()`: hand out the counter and advance it (a uint64
increment in `processMessages`); on a closed connection the receive fails
and the recover path yields 0 without advancing anything. -/
def nextMessageID (st : DispatchState) : Nat × DispatchState :=
  if st.connected then (st.nextId, { st with nextId := (st.nextId + 1) % UINT64_MOD })
  else (0, st)

/-- The sequence of message IDs handed out by `n` consecutive
`nextMessageID` calls from a given state. -/
def messageIDsFrom (st : DispatchState) : Nat → List Nat
  | 0 => []
  | n + 1 =>
    let (id, st2) := nextMessageID st
    id :: messageIDsFrom st2 n

/-- The first `n` message IDs a fresh connection hands out. -/
def messageIDs (n : Nat) : List Nat := messageIDsFrom initialDispatchState n

/-- `sendMessage(p)` as the dispatcher processes it: on a live connection
the message ID is entered into the correlation table and the packet written
to the socket; on a closed connection a network error ("Connection closed")
without any state change. -/
def sendMessage (st : DispatchState) (mid : Nat) (p : BerPacket) : DispatchState × Option LdapError :=
  if st.connected then
    ({ st with chanResults := st.chanResults ++ [mid], written := st.written ++ [p] }, none)
  else (st, some ⟨.network, "Connection closed"⟩)

/-- `finishMessage(messageID)`: the dispatcher removes the correlation-table
entry. -/
def finishMessage (st : DispatchState) (mid : Nat) : DispatchState :=
  { st with chanResults := st.chanResults.filter (fun i => i ≠ mid) }

/-- `closeAllChannels()` from `conn.go`: every correlation channel is closed
and deleted, and the message-id and process channels become nil.  Returns
the new state together with what each blocked receiver observes: its message
ID paired with the `nil` packet a closed Go channel yields. -/
def closeAllChannels (st : DispatchState) : DispatchState × List (Nat × Option BerPacket) :=
  ({ st with chanResults := [], connected := false },
   st.chanResults.map (fun id => (id, (none : Option BerPacket))))

/-- What a caller blocked on `packet = <-channel` does with what it
receives (`search.go`, and identically `add.go`, `bind`, `compare.go`): a
`nil` packet becomes the network error "Could not retrieve message". -/
def searchReceive (received : Option BerPacket) : Option LdapError :=
  match received with
  | none => some ⟨.network, "Could not retrieve message"⟩
  | some _ => none

/-- `ApplicationAddRequest` (RFC 4511 protocol-op tag; the Go constant's
declaring file is not among the sources). -/
def ApplicationAddRequest : Nat := 8

/-- `ApplicationAbandonRequest` (RFC 4511 protocol-op tag). -/
def ApplicationAbandonRequest : Nat := 16

/-- `ApplicationCompareRequest` (RFC 4511 protocol-op tag). -/
def ApplicationCompareRequest : Nat := 14

/-- `AddRequest` from `add.go`. -/
structure AddRequest where
  dn : String
  attributes : List EntryAttribute
  controls : List Control
deriving DecidableEq, Repr

/-- `ber.TagSet` -/
def TagSet : Nat := 17

/-- The attribute loop of `encodeAddRequest`: each attribute becomes
`sequence(name, set(values))`; an attribute with no values aborts with the
encoding error naming it. -/
def encodeAttrList : List EntryAttribute → Except LdapError (List BerPacket)
  | [] => .ok []
  | a :: rest =>
    if a.values = [] then
      .error ⟨.encoding, "Attribute " ++ a.name ++ " had no values."⟩
    else
      match encodeAttrList rest with
      | .error e => .error e
      | .ok packets =>
        .ok ({ cls := ClassUniversal, typ := TypeConstructed, tag := TagSequence, val := .nil,
               children := [berNewString ClassUniversal TypePrimative TagOctetString a.name,
                            { cls := ClassUniversal, typ := TypeConstructed, tag := TagSet,
                              val := .nil,
                              children := a.values.map
                                (berNewString ClassUniversal TypePrimative TagOctetString) }] }
             :: packets)

/-- `encodeAddRequest(addReq)` from `add.go`. -/
def encodeAddRequest (req : AddRequest) : Except LdapError BerPacket :=
  match encodeAttrList req.attributes with
  | .error e => .error e
  | .ok attrs =>
    .ok { cls := ClassApplication, typ := TypeConstructed, tag := ApplicationAddRequest,
          val := .nil,
          children := [berNewString ClassUniversal TypePrimative TagOctetString req.dn,
                       { cls := ClassUniversal, typ := TypeConstructed, tag := TagSequence,
                         val := .nil, children := attrs }] }

/-- `(c *ControlString) Encode()` and `(c *ControlPaging) Encode()` from
`control.go` (neither can fail; a paging cookie is carried as the data of an
octet-string packet, modelled as its decimal byte list rendered into the
string payload position via `.int`-free encoding — the packet holding the
cookie bytes). -/
def Control.encode : Control → BerPacket
  | .str t crit v =>
    let p := (berEncode ClassUniversal TypeConstructed TagSequence).appendChild
      (berNewString ClassUniversal TypePrimative TagOctetString t)
    let p := if crit then
        p.appendChild (berNewBoolean ClassUniversal TypePrimative TagBoolean crit)
      else p
    if v ≠ "" then p.appendChild (berNewString ClassUniversal TypePrimative TagOctetString v)
    else p
  | .paging size cookie =>
    let inner := ((berEncode ClassUniversal TypeConstructed TagSequence).appendChild
        (berNewInteger ClassUniversal TypePrimative TagInteger size)).appendChild
      { cls := ClassUniversal, typ := TypePrimative, tag := TagOctetString,
        val := .bytes cookie, children := [] }
    ((berEncode ClassUniversal TypeConstructed TagSequence).appendChild
        (berNewString ClassUniversal TypePrimative TagOctetString ControlTypePaging)).appendChild
      ((berEncode ClassUniversal TypePrimative TagOctetString).appendChild inner)

/-- `encodeControls(Controls)` from `control.go`. -/
def encodeControls (controls : List Control) : BerPacket :=
  { cls := ClassContext, typ := TypeConstructed, tag := 0, val := .nil,
    children := controls.map Control.encode }

/-- The send phase of `(l *Conn) Add(addReq)` from `add.go`, up to the
blocking receive: allocate a message ID, encode (an encoding failure returns
at once, before `sendMessage` — so before any write and before any
correlation-table entry), append controls if any, then send.  The receive
and the deferred `finishMessage` are modelled by `searchReceive` and
`finishMessage`. -/
def AddSend (st : DispatchState) (req : AddRequest) : DispatchState × Except LdapError Nat :=
  let (mid, st1) := nextMessageID st
  match encodeAddRequest req with
  | .error e => (st1, .error e)
  | .ok encoded =>
    let packet := ((berEncode ClassUniversal TypeConstructed TagSequence).appendChild
        (berNewInteger ClassUniversal TypePrimative TagInteger mid)).appendChild encoded
    let packet := if req.controls ≠ [] then packet.appendChild (encodeControls req.controls)
      else packet
    match sendMessage st1 mid packet with
    | (st2, some e) => (st2, .error e)
    | (st2, none) => (st2, .ok mid)

/-- `requestBuildPacket(messageID, opPacket, controls)` from `request.go`. -/
def requestBuildPacket (mid : Nat) (op : BerPacket) (controls : List Control) : BerPacket :=
  let p := ((berEncode ClassUniversal TypeConstructed TagSequence).appendChild
      (berNewInteger ClassUniversal TypePrimative TagInteger mid)).appendChild op
  if controls ≠ [] then p.appendChild (encodeControls controls) else p

/-- `(l *Conn) Abandon(abandonMessageID)` from `abandon.go`: allocate a
message ID, build the request whose payload is the integer-encoded target
message ID, send it, and — without ever receiving from the response channel
— release the correlation-table entry (`defer l.finishMessage`).  Returns
the final state and the error returned to the caller (`nil` on success; a
network error when the connection is closed and the send fails). -/
def AbandonCall (st : DispatchState) (abandonId : Nat) : DispatchState × Option LdapError :=
  let (mid, st1) := nextMessageID st
  let encoded := berNewInteger ClassApplication TypePrimative ApplicationAbandonRequest abandonId
  let packet := requestBuildPacket mid encoded []
  match sendMessage st1 mid packet with
  | (st2, some e) => (st2, some e)
  | (st2, none) => (finishMessage st2 mid, none)

/-- `CompareRequest` from `compare.go`. -/
structure CompareRequest where
  dn : String
  name : String
  value : String
  controls : List Control
deriving DecidableEq, Repr

/-- `encodeCompareRequest(req)` from `compare.go`: the DN and then the
attribute-value assertion built by the filter compiler's own `encodeItem`
with operator `=`. -/
def encodeCompareRequest (req : CompareRequest) : Except LdapError BerPacket :=
  match encodeItem req.name "=" req.value with
  | .error e => .error e
  | .ok ava =>
    .ok (((berEncode ClassApplication TypeConstructed ApplicationCompareRequest).appendChild
        (berNewString ClassUniversal TypePrimative TagOctetString req.dn)).appendChild ava)

/-- `parseLoopF` does not depend on the fuel as long as it exceeds the
input length: every match consumes at least one character. -/
theorem parseLoopF_irrel : ∀ fuel1 fuel2 (f : String) s stack bc,
    s.length < fuel1 → s.length < fuel2 →
    parseLoopF f fuel1 s stack bc = parseLoopF f fuel2 s stack bc := by
  intro fuel1
  induction fuel1 with
  | zero => intro fuel2 f s stack bc h1 _; omega
  | succ n ih =>
    intro fuel2 f s stack bc h1 h2
    match fuel2 with
    | 0 => omega
    | m + 1 =>
      simp only [parseLoopF]
      rcases hop : opMatch s with _ | cr
      · rcases hend : endMatch s with _ | rest
        · rcases hitem : itemMatch s with _ | iov
          · simp only [hop, hend, hitem]
          · have hlt := itemMatch_lt s iov.1 iov.2.1 iov.2.2.1 iov.2.2.2 (by rw [hitem])
            simp only [hop, hend, hitem]
            rcases henc : encodeItem iov.1 iov.2.1 iov.2.2.1 with e | item
            · rfl
            · exact ih m f iov.2.2.2 (pushItem item stack) bc (by omega) (by omega)
        · have hlt := endMatch_lt s rest hend
          simp only [hop, hend]
          by_cases hbc : bc = 0
          · simp [hbc]
          · simp only [if_neg hbc]
            exact ih m f rest (popStack stack) (bc - 1) (by omega) (by omega)
      · have hlt := opMatch_lt s cr.1 cr.2 (by rw [hop])
        simp only [hop]
        exact ih m f cr.2 (encodeComb cr.1 :: stack) (bc + 1) (by omega) (by omega)

/-- Step equation of the scan: a combinator-open match pushes a frame. -/
theorem parseLoop_op (f : String) (s : List Char) (stack : List BerPacket) (bc : Nat)
    (c : Char) (rest : List Char) (h : opMatch s = some (c, rest)) :
    parseLoop f s stack bc = parseLoop f rest (encodeComb c :: stack) (bc + 1) := by
  have hlt := opMatch_lt s c rest h
  unfold parseLoop
  conv_lhs => simp only [parseLoopF, h]
  exact parseLoopF_irrel s.length (rest.length + 1) f rest (encodeComb c :: stack) (bc + 1)
    (by omega) (by omega)

/-- Step equation of the scan: a close-parenthesis with an open combinator
pops the stack. -/
theorem parseLoop_end (f : String) (s : List Char) (stack : List BerPacket) (bc : Nat)
    (rest : List Char) (h : endMatch s = some rest) (hbc : bc ≠ 0)
    (hop : opMatch s = none) :
    parseLoop f s stack bc = parseLoop f rest (popStack stack) (bc - 1) := by
  have hlt := endMatch_lt s rest h
  unfold parseLoop
  conv_lhs => simp only [parseLoopF, h, hop]
  rw [if_neg hbc]
  exact parseLoopF_irrel s.length (rest.length + 1) f rest (popStack stack) (bc - 1)
    (by omega) (by omega)

/-- Step equation of the scan: an item attaches to the stack. -/
theorem parseLoop_item (f : String) (s : List Char) (stack : List BerPacket) (bc : Nat)
    (a o v : String) (rest : List Char) (item : BerPacket)
    (h : itemMatch s = some (a, o, v, rest)) (hop : opMatch s = none)
    (hend : endMatch s = none) (henc : encodeItem a o v = .ok item) :
    parseLoop f s stack bc = parseLoop f rest (pushItem item stack) bc := by
  have hlt := itemMatch_lt s a o v rest h
  unfold parseLoop
  conv_lhs => simp only [parseLoopF, h, hop, hend, henc]
  exact parseLoopF_irrel s.length (rest.length + 1) f rest (pushItem item stack) bc
    (by omega) (by omega)

/-- Step equation of the scan: an exhausted input returns the bottom of the
stack. -/
theorem parseLoop_done (f : String) (stack : List BerPacket) (bc : Nat) (root : BerPacket)
    (h : stack.getLast? = some root) :
    parseLoop f [] stack bc = .ok root := by
  unfold parseLoop
  rw [parseLoopF]
  simp [opMatch, endMatch, itemMatch, h]

/-- Character equality through code points. -/
theorem charEq_toNat (c d : Char) : (c = d) ↔ c.toNat = d.toNat := by
  constructor
  · intro h; subst h; rfl
  · intro h; exact Char.ext (UInt32.ext h)

/-- Character order through code points. -/
theorem charLe_toNat (c d : Char) : (c ≤ d) ↔ (c.toNat ≤ d.toNat) := by
  rw [Char.le_def]
  exact ⟨fun h => h, fun h => h⟩

/-- `isWS` through code points. -/
theorem isWS_iff (c : Char) : isWS c = true ↔
    (c.toNat = 32 ∨ c.toNat = 9 ∨ c.toNat = 10 ∨ c.toNat = 12 ∨ c.toNat = 13) := by
  have t1 : (' ' : Char).toNat = 32 := rfl
  have t2 : ('\t' : Char).toNat = 9 := rfl
  have t3 : ('\n' : Char).toNat = 10 := rfl
  have t4 : ('\x0c' : Char).toNat = 12 := rfl
  have t5 : ('\r' : Char).toNat = 13 := rfl
  simp only [isWS, Bool.or_eq_true, decide_eq_true_eq, charEq_toNat, t1, t2, t3, t4, t5]
  omega

/-- `isDigitChar` through code points. -/
theorem isDigitChar_iff (c : Char) : isDigitChar c = true ↔ (48 ≤ c.toNat ∧ c.toNat ≤ 57) := by
  have t1 : ('0' : Char).toNat = 48 := rfl
  have t2 : ('9' : Char).toNat = 57 := rfl
  simp only [isDigitChar, Bool.and_eq_true, decide_eq_true_eq, charLe_toNat, t1, t2]

/-- `isWordChar` through code points. -/
theorem isWordChar_iff (c : Char) : isWordChar c = true ↔
    ((48 ≤ c.toNat ∧ c.toNat ≤ 57) ∨ (97 ≤ c.toNat ∧ c.toNat ≤ 122) ∨
     (65 ≤ c.toNat ∧ c.toNat ≤ 90) ∨ c.toNat = 95) := by
  have t1 : ('a' : Char).toNat = 97 := rfl
  have t2 : ('z' : Char).toNat = 122 := rfl
  have t3 : ('A' : Char).toNat = 65 := rfl
  have t4 : ('Z' : Char).toNat = 90 := rfl
  have t5 : ('_' : Char).toNat = 95 := rfl
  simp only [isWordChar, Bool.or_eq_true, Bool.and_eq_true, decide_eq_true_eq,
    charEq_toNat, charLe_toNat, isDigitChar_iff, t1, t2, t3, t4, t5]
  omega

/-- `isAttrChar` through code points. -/
theorem isAttrChar_iff (c : Char) : isAttrChar c = true ↔
    (c.toNat = 45 ∨ c.toNat = 59 ∨ c.toNat = 46 ∨ c.toNat = 58 ∨
     (48 ≤ c.toNat ∧ c.toNat ≤ 57) ∨ (97 ≤ c.toNat ∧ c.toNat ≤ 122) ∨
     (65 ≤ c.toNat ∧ c.toNat ≤ 90) ∨ c.toNat = 95) := by
  have t1 : ('-' : Char).toNat = 45 := rfl
  have t2 : (';' : Char).toNat = 59 := rfl
  have t3 : ('.' : Char).toNat = 46 := rfl
  have t4 : (':' : Char).toNat = 58 := rfl
  simp only [isAttrChar, Bool.or_eq_true, decide_eq_true_eq, charEq_toNat,
    isDigitChar_iff, isWordChar_iff, t1, t2, t3, t4]
  omega

/-- `isAttrEndChar` through code points. -/
theorem isAttrEndChar_iff (c : Char) : isAttrEndChar c = true ↔
    (c.toNat = 45 ∨ c.toNat = 59 ∨
     (48 ≤ c.toNat ∧ c.toNat ≤ 57) ∨ (97 ≤ c.toNat ∧ c.toNat ≤ 122) ∨
     (65 ≤ c.toNat ∧ c.toNat ≤ 90) ∨ c.toNat = 95) := by
  have t1 : ('-' : Char).toNat = 45 := rfl
  have t2 : (';' : Char).toNat = 59 := rfl
  simp only [isAttrEndChar, Bool.or_eq_true, decide_eq_true_eq, charEq_toNat,
    isDigitChar_iff, isWordChar_iff, t1, t2]
  omega

/-- An attribute character is not whitespace. -/
theorem isAttrChar_not_ws (c : Char) (h : isAttrChar c = true) : isWS c = false := by
  rcases hw : isWS c with _ | _
  · rfl
  · have h1 := (isAttrChar_iff c).mp h
    have h2 := (isWS_iff c).mp hw
    omega

/-- An attribute character is none of the combinator characters. -/
theorem isAttrChar_not_comb (c : Char) (h : isAttrChar c = true) :
    (c = '&' || c = '!' || c = '|') = false := by
  have h1 := (isAttrChar_iff c).mp h
  have t1 : ('&' : Char).toNat = 38 := rfl
  have t2 : ('!' : Char).toNat = 33 := rfl
  have t3 : ('|' : Char).toNat = 124 := rfl
  simp only [Bool.or_eq_false_iff, decide_eq_false_iff_not, charEq_toNat, t1, t2, t3]
  omega

/-- An attribute character is not a parenthesis. -/
theorem isAttrChar_ne_paren (c : Char) (h : isAttrChar c = true) : c ≠ '(' ∧ c ≠ ')' := by
  have h1 := (isAttrChar_iff c).mp h
  have t1 : ('(' : Char).toNat = 40 := rfl
  have t2 : (')' : Char).toNat = 41 := rfl
  constructor <;> (intro he; rw [charEq_toNat] at he; omega)

/-- No operator character (`=`, `>`, `<`, `~`) is an attribute character. -/
theorem opChar_not_attr :
    isAttrChar '=' = false ∧ isAttrChar '>' = false ∧ isAttrChar '<' = false ∧
    isAttrChar '~' = false := by decide

/-- No operator character is whitespace. -/
theorem opChar_not_ws :
    isWS '=' = false ∧ isWS '>' = false ∧ isWS '<' = false ∧ isWS '~' = false := by decide

/-- `skipWS` is the identity on input whose head is not whitespace. -/
theorem skipWS_cons (c : Char) (r : List Char) (h : isWS c = false) :
    skipWS (c :: r) = c :: r := by
  simp [skipWS, List.dropWhile_cons, h]

/-- `skipWS []` -/
theorem skipWS_nil : skipWS [] = [] := rfl

/-- `takeWhile`/`dropWhile` split an all-satisfying prefix followed by a
failing character exactly there. -/
theorem span_exact (p : Char → Bool) : ∀ (l : List Char) (d : Char) (r : List Char),
    (∀ c ∈ l, p c = true) → p d = false →
    (l ++ d :: r).takeWhile p = l ∧ (l ++ d :: r).dropWhile p = d :: r := by
  intro l
  induction l with
  | nil =>
    intro d r _ hd
    simp [List.takeWhile_cons, List.dropWhile_cons, hd]
  | cons c cs ih =>
    intro d r hall hd
    have hc : p c = true := hall c (by simp)
    have := ih d r (fun x hx => hall x (by simp [hx])) hd
    simp [List.takeWhile_cons, List.dropWhile_cons, hc, this.1, this.2]

/-- `valScan` consumes a `goodVal` string entirely, stopping exactly at the
closing parenthesis that follows it. -/
theorem valScan_goodVal : ∀ (v : List Char), goodVal v = true → ∀ r,
    valScan (v ++ ')' :: r) = (v, ')' :: r) := by
  have base : ∀ r, valScan (')' :: r) = ([], ')' :: r) := by
    intro r
    rw [valScan.eq_def]
    simp only []
    rw [if_neg (by decide)]
    rw [if_pos (by decide)]
  have key : ∀ n (v : List Char), v.length ≤ n → goodVal v = true → ∀ r,
      valScan (v ++ ')' :: r) = (v, ')' :: r) := by
    intro n
    induction n with
    | zero =>
      intro v hv hg r
      have hv0 : v = [] := List.length_eq_zero.mp (Nat.le_zero.mp hv)
      subst hv0
      simpa using base r
    | succ n ih =>
      intro v hv hg r
      cases v with
      | nil => simpa using base r
      | cons c cs =>
        by_cases hc : c = '\\'
        · subst hc
          cases cs with
          | nil => simp [goodVal] at hg
          | cons d ds =>
            simp only [goodVal] at hg
            rw [if_pos trivial] at hg
            simp only [Bool.and_eq_true, decide_eq_true_eq] at hg
            simp only [List.cons_append]
            rw [valScan.eq_def]
            try simp only []
            rw [if_pos trivial]
            rw [if_neg hg.1]
            have := ih ds (by simp only [List.length_cons] at hv; omega) hg.2 r
            simp [this]
        · have hg2 : (c = '(' || c = ')') = false ∧ goodVal cs = true := by
            rw [goodVal.eq_def] at hg
            simp only [if_neg hc] at hg
            simp only [Bool.and_eq_true, Bool.not_eq_true'] at hg
            exact hg
          simp only [List.cons_append]
          rw [valScan.eq_def]
          try simp only []
          simp only [if_neg hc]
          rw [hg2.1]
          rw [if_neg (by simp)]
          have := ih cs (by simp only [List.length_cons] at hv; omega) hg2.2 r
          simp [this]
  intro v hg r
  exact key v.length v (Nat.le_refl _) hg r

/-- `opSymMatch` on a comparison operator followed by anything. -/
theorem opSymMatch_exact (o : String) (ho : o = "=" ∨ o = ">=" ∨ o = "<=" ∨ o = "~=")
    (t : List Char) : opSymMatch (o.toList ++ t) = some (o, t) := by
  rcases ho with h | h | h | h <;> subst h <;> rfl

/-- The head of a comparison operator is neither whitespace nor an
attribute character. -/
theorem opHead_classes (o : String) (ho : o = "=" ∨ o = ">=" ∨ o = "<=" ∨ o = "~=") :
    ∃ c t, o.toList = c :: t ∧ isWS c = false ∧ isAttrChar c = false := by
  rcases ho with h | h | h | h <;> subst h
  · exact ⟨'=', [], rfl, by decide, by decide⟩
  · exact ⟨'>', ['='], rfl, by decide, by decide⟩
  · exact ⟨'<', ['='], rfl, by decide, by decide⟩
  · exact ⟨'~', ['='], rfl, by decide, by decide⟩

/-- `itemRest` on an operator, a well-formed value, the closing parenthesis
and a rest that begins with no whitespace. -/
theorem itemRest_exact (o : String) (ho : o = "=" ∨ o = ">=" ∨ o = "<=" ∨ o = "~=")
    (v : List Char) (hv : goodVal v = true) (rest : List Char) (hr : skipWS rest = rest) :
    itemRest (o.toList ++ (v ++ ')' :: rest)) = some (o, String.mk v, rest) := by
  obtain ⟨c, t, hct, hws, _⟩ := opHead_classes o ho
  rw [itemRest]
  rw [hct]
  simp only [List.cons_append]
  rw [skipWS_cons c _ hws]
  rw [← List.cons_append, ← hct]
  rw [opSymMatch_exact o ho]
  simp only []
  rw [valScan_goodVal v hv rest]
  simp only []
  rw [hr]

/-- The components of a well-formed attribute. -/
theorem goodAttr_parts (attr : List Char) (ha : goodAttr attr = true) :
    attr ≠ [] ∧ (∀ c ∈ attr, isAttrChar c = true) ∧
    ∀ h : attr ≠ [], isAttrEndChar (attr.getLast h) = true := by
  simp only [goodAttr, Bool.and_eq_true] at ha
  obtain ⟨⟨h1, h2⟩, h3⟩ := ha
  have hne : attr ≠ [] := by
    intro h
    subst h
    simp at h1
  refine ⟨hne, ?_, ?_⟩
  · intro c hc
    exact List.all_eq_true.mp h2 c hc
  · intro h
    rw [List.getLast?_eq_getLast attr hne] at h3
    exact h3

/-- `attrBacktrack` starting at the full length of a well-formed attribute
run succeeds immediately when the rest of the regex matches what follows. -/
theorem attrBacktrack_exact (attr : List Char) (ha : goodAttr attr = true)
    (restAfter : List Char) (o v : String) (rest : List Char)
    (hrest : itemRest restAfter = some (o, v, rest)) :
    attrBacktrack attr restAfter attr.length = some (String.mk attr, o, v, rest) := by
  obtain ⟨hne, hall, hlast⟩ := goodAttr_parts attr ha
  obtain ⟨m, hm⟩ : ∃ m, attr.length = m + 1 := by
    have := List.length_pos.mpr hne
    exact ⟨attr.length - 1, by omega⟩
  have hk : m < attr.length := by omega
  rw [hm, attrBacktrack]
  have hget : isAttrEndChar (attr.get ⟨m, hk⟩) = true := by
    have hgl := hlast hne
    rw [List.getLast_eq_get attr hne] at hgl
    have : attr.length - 1 = m := by omega
    simp only [this] at hgl
    exact hgl
  rw [dif_pos hk, if_pos hget]
  have hdrop : attr.drop (m + 1) = [] := by
    rw [← hm]
    exact List.drop_length attr
  rw [hdrop, List.nil_append, hrest]
  have htake : attr.take (m + 1) = attr := by
    rw [← hm]
    exact List.take_length attr
  rw [htake]

/-- `itemMatch` on exactly the text the decompiler prints for a leaf item:
an opening parenthesis, a well-formed attribute, a comparison operator, a
well-formed value, the closing parenthesis, then a rest that starts with no
whitespace. -/
theorem itemMatch_exact (attr : List Char) (ha : goodAttr attr = true)
    (o : String) (ho : o = "=" ∨ o = ">=" ∨ o = "<=" ∨ o = "~=")
    (v : List Char) (hv : goodVal v = true) (rest : List Char) (hr : skipWS rest = rest) :
    itemMatch ('(' :: (attr ++ (o.toList ++ (v ++ ')' :: rest)))) =
      some (String.mk attr, o, String.mk v, rest) := by
  obtain ⟨hne, hall, _⟩ := goodAttr_parts attr ha
  obtain ⟨c0, t0, hct, hws0, hattr0⟩ := opHead_classes o ho
  rw [itemMatch]
  obtain ⟨a0, as, hattr⟩ : ∃ a0 as, attr = a0 :: as := by
    cases attr with
    | nil => exact absurd rfl hne
    | cons a0 as => exact ⟨a0, as, rfl⟩
  have hws : skipWS (attr ++ (o.toList ++ (v ++ ')' :: rest))) =
      attr ++ (o.toList ++ (v ++ ')' :: rest)) := by
    rw [hattr, List.cons_append]
    exact skipWS_cons a0 _ (isAttrChar_not_ws a0 (hall a0 (by rw [hattr]; simp)))
  rw [hws]
  have hspan := span_exact isAttrChar attr c0 (t0 ++ (v ++ ')' :: rest)) hall hattr0
  have harr : attr ++ (o.toList ++ (v ++ ')' :: rest)) =
      attr ++ c0 :: (t0 ++ (v ++ ')' :: rest)) := by
    rw [hct]
    simp
  rw [harr, hspan.1, hspan.2]
  have hra : c0 :: (t0 ++ (v ++ ')' :: rest)) = o.toList ++ (v ++ ')' :: rest) := by
    rw [hct]
    simp
  rw [hra]
  exact attrBacktrack_exact attr ha _ o (String.mk v) rest (itemRest_exact o ho v hv rest hr)

/-- `opMatch` fails when the character after the parenthesis is neither
whitespace nor a combinator. -/
theorem opMatch_attr_none (c : Char) (r : List Char) (hws : isWS c = false)
    (hcomb : (c = '&' || c = '!' || c = '|') = false) : opMatch ('(' :: c :: r) = none := by
  rw [opMatch]
  rw [skipWS_cons c r hws]
  simp only [hcomb]
  rfl

/-- `endMatch` fails on an opening parenthesis. -/
theorem endMatch_open_none (r : List Char) : endMatch ('(' :: r) = none := rfl

/-- `opMatch` on a combinator-open with no following whitespace. -/
theorem opMatch_comb (b : Char) (hb : (b = '&' || b = '!' || b = '|') = true)
    (rest : List Char) (hr : skipWS rest = rest) :
    opMatch ('(' :: b :: rest) = some (b, rest) := by
  have hbws : isWS b = false := by
    rcases Bool.or_eq_true_iff.mp hb with h | h
    · rcases Bool.or_eq_true_iff.mp h with h | h <;>
        (rw [decide_eq_true_eq] at h; subst h; rfl)
    · rw [decide_eq_true_eq] at h; subst h; rfl
  rw [opMatch]
  rw [skipWS_cons b rest hbws]
  simp only [hb]
  rw [if_pos trivial, hr]

/-- `wildPrefix` finds a `goodSeg` prefix before an unescaped star. -/
theorem wildPrefix_append_star : ∀ (s : List Char), goodSeg s = true → ∀ t,
    wildPrefix (s ++ '*' :: t) = some s := by
  have key : ∀ n (s : List Char), s.length ≤ n → goodSeg s = true → ∀ t,
      wildPrefix (s ++ '*' :: t) = some s := by
    intro n
    induction n with
    | zero =>
      intro s hs hg t
      have hs0 : s = [] := List.length_eq_zero.mp (Nat.le_zero.mp hs)
      subst hs0
      rw [List.nil_append, wildPrefix.eq_def]
      try simp only []
      rw [if_pos trivial]
    | succ n ih =>
      intro s hs hg t
      cases s with
      | nil =>
        rw [List.nil_append, wildPrefix.eq_def]
        try simp only []
        rw [if_pos trivial]
      | cons c cs =>
        by_cases hc : c = '\\'
        · subst hc
          cases cs with
          | nil => simp [goodSeg] at hg
          | cons d ds =>
            simp only [goodSeg] at hg
            rw [if_pos trivial] at hg
            simp only [Bool.and_eq_true, decide_eq_true_eq] at hg
            simp only [List.cons_append]
            rw [wildPrefix.eq_def]
            try simp only []
            rw [if_neg (by decide), if_pos trivial]
            try simp only [List.cons_append]
            rw [if_neg hg.1]
            have := ih ds (by simp only [List.length_cons] at hs; omega) hg.2 t
            rw [this]
            rfl
        · have hg2 : (c = '*' || c = '(' || c = ')') = false ∧ goodSeg cs = true := by
            rw [goodSeg.eq_def] at hg
            simp only [if_neg hc] at hg
            simp only [Bool.and_eq_true, Bool.not_eq_true'] at hg
            exact hg
          have hstar : ¬ (c = '*') := by
            have := hg2.1
            simp only [Bool.or_eq_false_iff, decide_eq_false_iff_not] at this
            exact this.1.1
          simp only [List.cons_append]
          rw [wildPrefix.eq_def]
          try simp only []
          rw [if_neg hstar, if_neg hc]
          have := ih cs (by simp only [List.length_cons] at hs; omega) hg2.2 t
          rw [this]
          rfl
  intro s hg t
  exact key s.length s (Nat.le_refl _) hg t

/-- A `goodSeg` string alone contains no unescaped star. -/
theorem wildPrefix_goodSeg_none : ∀ (s : List Char), goodSeg s = true →
    wildPrefix s = none := by
  have key : ∀ n (s : List Char), s.length ≤ n → goodSeg s = true →
      wildPrefix s = none := by
    intro n
    induction n with
    | zero =>
      intro s hs _
      have hs0 : s = [] := List.length_eq_zero.mp (Nat.le_zero.mp hs)
      subst hs0
      rfl
    | succ n ih =>
      intro s hs hg
      cases s with
      | nil => rfl
      | cons c cs =>
        by_cases hc : c = '\\'
        · subst hc
          cases cs with
          | nil => simp [goodSeg] at hg
          | cons d ds =>
            simp only [goodSeg] at hg
            rw [if_pos trivial] at hg
            simp only [Bool.and_eq_true, decide_eq_true_eq] at hg
            rw [wildPrefix.eq_def]
            try simp only []
            rw [if_neg (by decide), if_pos trivial]
            rw [if_neg hg.1]
            have := ih ds (by simp only [List.length_cons] at hs; omega) hg.2
            rw [this]
            rfl
        · have hg2 : (c = '*' || c = '(' || c = ')') = false ∧ goodSeg cs = true := by
            rw [goodSeg.eq_def] at hg
            simp only [if_neg hc] at hg
            simp only [Bool.and_eq_true, Bool.not_eq_true'] at hg
            exact hg
          have hstar : ¬ (c = '*') := by
            have := hg2.1
            simp only [Bool.or_eq_false_iff, decide_eq_false_iff_not] at this
            exact this.1.1
          rw [wildPrefix.eq_def]
          try simp only []
          rw [if_neg hstar, if_neg hc]
          have := ih cs (by simp only [List.length_cons] at hs; omega) hg2.2
          rw [this]
          rfl
  intro s hg
  exact key s.length s (Nat.le_refl _) hg

/-- `goodVal` is closed under concatenation. -/
theorem goodVal_append : ∀ (a : List Char), goodVal a = true → ∀ b, goodVal b = true →
    goodVal (a ++ b) = true := by
  have key : ∀ n (a : List Char), a.length ≤ n → goodVal a = true → ∀ b, goodVal b = true →
      goodVal (a ++ b) = true := by
    intro n
    induction n with
    | zero =>
      intro a ha hga b hgb
      have ha0 : a = [] := List.length_eq_zero.mp (Nat.le_zero.mp ha)
      subst ha0
      simpa using hgb
    | succ n ih =>
      intro a ha hga b hgb
      cases a with
      | nil => simpa using hgb
      | cons c cs =>
        by_cases hc : c = '\\'
        · subst hc
          cases cs with
          | nil => simp [goodVal] at hga
          | cons d ds =>
            simp only [goodVal] at hga
            rw [if_pos trivial] at hga
            simp only [Bool.and_eq_true, decide_eq_true_eq] at hga
            simp only [List.cons_append]
            rw [goodVal.eq_def]
            try simp only []
            rw [if_pos trivial]
            try simp only [List.cons_append]
            have := ih ds (by simp only [List.length_cons] at ha; omega) hga.2 b hgb
            simp [hga.1, this]
        · have hg2 : (c = '(' || c = ')') = false ∧ goodVal cs = true := by
            rw [goodVal.eq_def] at hga
            simp only [if_neg hc] at hga
            simp only [Bool.and_eq_true, Bool.not_eq_true'] at hga
            exact hga
          simp only [List.cons_append]
          rw [goodVal.eq_def]
          try simp only []
          rw [if_neg hc]
          have := ih cs (by simp only [List.length_cons] at ha; omega) hg2.2 b hgb
          simp [hg2.1, this]
  intro a hga b hgb
  exact key a.length a (Nat.le_refl _) hga b hgb

/-- A `goodSeg` string is also a well-formed `itemRegex` value. -/
theorem goodSeg_goodVal : ∀ (s : List Char), goodSeg s = true → goodVal s = true := by
  have key : ∀ n (s : List Char), s.length ≤ n → goodSeg s = true → goodVal s = true := by
    intro n
    induction n with
    | zero =>
      intro s hs _
      have hs0 : s = [] := List.length_eq_zero.mp (Nat.le_zero.mp hs)
      subst hs0
      rfl
    | succ n ih =>
      intro s hs hg
      cases s with
      | nil => rfl
      | cons c cs =>
        by_cases hc : c = '\\'
        · subst hc
          cases cs with
          | nil => simp [goodSeg] at hg
          | cons d ds =>
            simp only [goodSeg] at hg
            rw [if_pos trivial] at hg
            simp only [Bool.and_eq_true, decide_eq_true_eq] at hg
            rw [goodVal.eq_def]
            try simp only []
            rw [if_pos trivial]
            have := ih ds (by simp only [List.length_cons] at hs; omega) hg.2
            simp [hg.1, this]
        · have hg2 : (c = '*' || c = '(' || c = ')') = false ∧ goodSeg cs = true := by
            rw [goodSeg.eq_def] at hg
            simp only [if_neg hc] at hg
            simp only [Bool.and_eq_true, Bool.not_eq_true'] at hg
            exact hg
          rw [goodVal.eq_def]
          try simp only []
          rw [if_neg hc]
          have := ih cs (by simp only [List.length_cons] at hs; omega) hg2.2
          simp only [Bool.or_eq_false_iff, decide_eq_false_iff_not] at hg2
          have h3 : (c = '(' || c = ')') = false := by
            simp only [Bool.or_eq_false_iff, decide_eq_false_iff_not]
            exact ⟨hg2.1.1.2, hg2.1.2⟩
          simp [h3, this]
  intro s hg
  exact key s.length s (Nat.le_refl _) hg

/-- The substring scan of a value `s*` with one well-formed non-empty
segment: exactly one initial segment. -/
theorem subLoop_initial (s : List Char) (hg : goodSeg s = true) (hne : s ≠ []) :
    subLoop (s ++ ['*']) true [] = .ok
      [berNewString ClassContext TypePrimative FilterSubstringsInitial (String.mk s)] := by
  unfold subLoop
  obtain ⟨m, hm⟩ : ∃ m, (s ++ ['*']).length = m + 1 := ⟨s.length, by simp⟩
  rw [hm, subLoopF]
  have hwp : wildPrefix (s ++ ['*']) = some s := wildPrefix_append_star s hg []
  rw [hwp]
  have hv2 : List.drop (s.length + 1) (s ++ ['*']) = [] :=
    List.drop_eq_nil_of_le (by simp)
  simp [hne, hv2]

/-- The substring scan of a value `*s*`: exactly one any-segment. -/
theorem subLoop_any (s : List Char) (hg : goodSeg s = true) (hne : s ≠ []) :
    subLoop ('*' :: (s ++ ['*'])) true [] = .ok
      [berNewString ClassContext TypePrimative FilterSubstringsAny (String.mk s)] := by
  unfold subLoop
  rw [show ('*' :: (s ++ ['*'])).length + 1 = ((s ++ ['*']).length + 1) + 1 by simp]
  rw [subLoopF]
  have hwp0 : wildPrefix ('*' :: (s ++ ['*'])) = some [] := by
    rw [wildPrefix.eq_def]
    try simp only []
    rw [if_pos trivial]
  rw [hwp0]
  have hstep : List.drop 1 ('*' :: (s ++ ['*'])) = s ++ ['*'] := rfl
  simp only [List.length_nil, Nat.zero_add, hstep]
  have hne2 : ¬ (s ++ ['*'] = []) := by simp
  rw [if_neg (by simp)]
  rw [subLoopF]
  have hwp : wildPrefix (s ++ ['*']) = some s := wildPrefix_append_star s hg []
  rw [hwp]
  have hv2 : List.drop (s.length + 1) (s ++ ['*']) = [] :=
    List.drop_eq_nil_of_le (by simp)
  simp [hne, hv2]

/-- The substring scan of a value `*s`: exactly one final segment. -/
theorem subLoop_final (s : List Char) (hg : goodSeg s = true) (hne : s ≠ []) :
    subLoop ('*' :: s) true [] = .ok
      [berNewString ClassContext TypePrimative FilterSubstringsFinal (String.mk s)] := by
  unfold subLoop
  rw [show ('*' :: s).length + 1 = (s.length + 1) + 1 by simp]
  rw [subLoopF]
  have hwp0 : wildPrefix ('*' :: s) = some [] := by
    rw [wildPrefix.eq_def]
    try simp only []
    rw [if_pos trivial]
  rw [hwp0]
  have hstep : List.drop 1 ('*' :: s) = s := rfl
  simp only [List.length_nil, Nat.zero_add, hstep]
  rw [if_neg hne]
  rw [subLoopF]
  have hwp : wildPrefix s = none := wildPrefix_goodSeg_none s hg
  rw [hwp]
  simp [hne]

/-- `encodeItem` on `=` with a plain value: an equality
attribute-value assertion. -/
theorem encodeItem_eq_plain (attr w : String) (hw : ¬ (w = "*"))
    (hwild : hasUnescapedWildcard w.toList = false) :
    encodeItem attr "=" w = .ok
      { cls := ClassContext, typ := TypeConstructed, tag := FilterEqualityMatch, val := .nil,
        children := [berNewString ClassUniversal TypePrimative TagOctetString attr,
                     berNewString ClassUniversal TypePrimative TagOctetString w] } := by
  unfold encodeItem
  rw [if_neg (by decide)]
  rw [if_neg (by simp [hw])]
  rw [if_neg (by intro hcond; simp at hcond; rw [show (hasUnescapedWildcard w.data) = hasUnescapedWildcard w.toList from rfl] at hcond; rw [hwild] at hcond; cases hcond)]
  rfl

/-- `encodeItem` on `>=`, `<=` or `~=`: an attribute-value assertion with
the operator's tag. -/
theorem encodeItem_cmp (attr w : String) (o : String)
    (ho : o = ">=" ∨ o = "<=" ∨ o = "~=") :
    encodeItem attr o w = .ok
      { cls := ClassContext, typ := TypeConstructed, tag := FilterComponent o, val := .nil,
        children := [berNewString ClassUniversal TypePrimative TagOctetString attr,
                     berNewString ClassUniversal TypePrimative TagOctetString w] } := by
  rcases ho with h | h | h <;> subst h <;> rfl

/-- `encodeItem` on `=` with the literal `*` value: a Present leaf. -/
theorem encodeItem_present (attr : String) :
    encodeItem attr "=" "*" = .ok (berNewString ClassContext TypePrimative FilterPresent attr) := rfl

/-- `encodeItem` on `=` with value `s*`: a substrings node with one initial
segment. -/
theorem encodeItem_sub_initial (attr : String) (s : List Char) (hg : goodSeg s = true)
    (hne : s ≠ []) :
    encodeItem attr "=" (String.mk (s ++ ['*'])) = .ok
      { cls := ClassContext, typ := TypeConstructed, tag := FilterSubstrings, val := .nil,
        children := [berNewString ClassUniversal TypePrimative TagOctetString attr,
          { cls := ClassUniversal, typ := TypeConstructed, tag := TagSequence, val := .nil,
            children := [berNewString ClassContext TypePrimative FilterSubstringsInitial
              (String.mk s)] }] } := by
  have hstar : ¬ (String.mk (s ++ ['*']) = "*") := by
    intro h
    have := congrArg String.data h
    simp at this
    exact hne this
  have hwild : hasUnescapedWildcard (String.mk (s ++ ['*'])).toList = true := by
    show (wildPrefix (s ++ ['*'])).isSome = true
    rw [wildPrefix_append_star s hg []]
    rfl
  unfold encodeItem
  rw [if_neg (by decide)]
  rw [if_neg (by simp [hstar])]
  rw [if_pos (by simp; exact hwild)]
  unfold encodeSubStringMatch
  have : (String.mk (s ++ ['*'])).toList = s ++ ['*'] := rfl
  rw [this, subLoop_initial s hg hne]

/-- `encodeItem` on `=` with value `*s*`: a substrings node with one
any-segment. -/
theorem encodeItem_sub_any (attr : String) (s : List Char) (hg : goodSeg s = true)
    (hne : s ≠ []) :
    encodeItem attr "=" (String.mk ('*' :: (s ++ ['*']))) = .ok
      { cls := ClassContext, typ := TypeConstructed, tag := FilterSubstrings, val := .nil,
        children := [berNewString ClassUniversal TypePrimative TagOctetString attr,
          { cls := ClassUniversal, typ := TypeConstructed, tag := TagSequence, val := .nil,
            children := [berNewString ClassContext TypePrimative FilterSubstringsAny
              (String.mk s)] }] } := by
  have hstar : ¬ (String.mk ('*' :: (s ++ ['*'])) = "*") := by
    intro h
    have := congrArg String.data h
    simp at this
  have hwild : hasUnescapedWildcard (String.mk ('*' :: (s ++ ['*']))).toList = true := by
    show (wildPrefix ('*' :: (s ++ ['*']))).isSome = true
    rw [wildPrefix.eq_def]
    try simp only []
    rw [if_pos trivial]
    rfl
  unfold encodeItem
  rw [if_neg (by decide)]
  rw [if_neg (by simp [hstar])]
  rw [if_pos (by simp; exact hwild)]
  unfold encodeSubStringMatch
  have : (String.mk ('*' :: (s ++ ['*']))).toList = '*' :: (s ++ ['*']) := rfl
  rw [this, subLoop_any s hg hne]

/-- `encodeItem` on `=` with value `*s`: a substrings node with one final
segment. -/
theorem encodeItem_sub_final (attr : String) (s : List Char) (hg : goodSeg s = true)
    (hne : s ≠ []) :
    encodeItem attr "=" (String.mk ('*' :: s)) = .ok
      { cls := ClassContext, typ := TypeConstructed, tag := FilterSubstrings, val := .nil,
        children := [berNewString ClassUniversal TypePrimative TagOctetString attr,
          { cls := ClassUniversal, typ := TypeConstructed, tag := TagSequence, val := .nil,
            children := [berNewString ClassContext TypePrimative FilterSubstringsFinal
              (String.mk s)] }] } := by
  have hstar : ¬ (String.mk ('*' :: s) = "*") := by
    intro h
    have := congrArg String.data h
    simp at this
    exact hne this
  have hwild : hasUnescapedWildcard (String.mk ('*' :: s)).toList = true := by
    show (wildPrefix ('*' :: s)).isSome = true
    rw [wildPrefix.eq_def]
    try simp only []
    rw [if_pos trivial]
    rfl
  unfold encodeItem
  rw [if_neg (by decide)]
  rw [if_neg (by simp [hstar])]
  rw [if_pos (by simp; exact hwild)]
  unfold encodeSubStringMatch
  have : (String.mk ('*' :: s)).toList = '*' :: s := rfl
  rw [this, subLoop_final s hg hne]

/-- Inversion of `avaOK`. -/
theorem avaOK_inv (ch : List BerPacket) (h : avaOK ch = true) :
    ∃ a w, ch = [berNewString ClassUniversal TypePrimative TagOctetString a,
                 berNewString ClassUniversal TypePrimative TagOctetString w] ∧
      goodAttr a.toList = true ∧ goodVal w.toList = true := by
  unfold avaOK at h
  split at h
  · rename_i a w
    simp only [Bool.and_eq_true] at h
    exact ⟨a, w, rfl, h.1, h.2⟩
  · cases h

/-- Inversion of `avaOK3`. -/
theorem avaOK3_inv (ch : List BerPacket) (h : avaOK3 ch = true) :
    ∃ a w, ch = [berNewString ClassUniversal TypePrimative TagOctetString a,
                 berNewString ClassUniversal TypePrimative TagOctetString w] ∧
      goodAttr a.toList = true ∧ goodVal w.toList = true ∧ ¬ (w = "*") ∧
      hasUnescapedWildcard w.toList = false := by
  unfold avaOK3 at h
  split at h
  · rename_i a w
    simp only [Bool.and_eq_true, Bool.not_eq_true', decide_eq_false_iff_not] at h
    exact ⟨a, w, rfl, h.1.1.1, h.1.1.2, h.1.2, h.2⟩
  · cases h

/-- Inversion of `subOK`. -/
theorem subOK_inv (ch : List BerPacket) (h : subOK ch = true) :
    ∃ a t s, ch = [berNewString ClassUniversal TypePrimative TagOctetString a,
        { cls := ClassUniversal, typ := TypeConstructed, tag := TagSequence, val := .nil,
          children := [berNewString ClassContext TypePrimative t s] }] ∧
      goodAttr a.toList = true ∧ (t = 0 ∨ t = 1 ∨ t = 2) ∧ ¬ (s = "") ∧
      goodSeg s.toList = true := by
  unfold subOK at h
  split at h
  · rename_i a t s
    simp only [Bool.and_eq_true, Bool.not_eq_true', decide_eq_false_iff_not,
      Bool.or_eq_true, decide_eq_true_eq] at h
    refine ⟨a, t, s, rfl, h.1.1.1, ?_, h.1.2, h.2⟩
    rcases h.1.1.2 with h2 | h2
    · rcases h2 with h2 | h2
      · exact Or.inl h2
      · exact Or.inr (Or.inl h2)
    · exact Or.inr (Or.inr h2)
  · cases h

/-- `popStack` after a completed frame behaves as attaching the frame,
whatever the remaining stack. -/
theorem popStack_push (t : BerPacket) (stack : List BerPacket) :
    popStack (t :: stack) = pushItem t stack := by
  cases stack <;> rfl

/-- Folding `AppendChild` over a list of children extends the children
field. -/
theorem foldl_appendChild (l : List BerPacket) : ∀ (c ty g : Nat) (v : BerValue) (acc : List BerPacket),
    List.foldl BerPacket.appendChild ⟨c, ty, g, v, acc⟩ l = ⟨c, ty, g, v, acc ++ l⟩ := by
  induction l with
  | nil => intro c ty g v acc; simp
  | cons x xs ih =>
    intro c ty g v acc
    simp only [List.foldl_cons]
    rw [show BerPacket.appendChild ⟨c, ty, g, v, acc⟩ x = ⟨c, ty, g, v, acc ++ [x]⟩ from rfl]
    rw [ih]
    simp

/-- Every printed well-shaped tree starts with an opening parenthesis. -/
theorem printFilterL_head (t : BerPacket) (h : roundOK t = true) :
    ∃ r, printFilterL t = '(' :: r := by
  obtain ⟨c, ty, g, v, ch⟩ := t
  rw [roundOK.eq_def] at h
  try simp only [] at h
  split at h
  · rename_i hshape
    obtain ⟨hc, hty, hv⟩ := hshape
    subst hc; subst hty; subst hv
    split at h
    · rename_i hg
      rcases hg with hg | hg <;> subst hg
      · exact ⟨'&' :: (printListL ch ++ [')']), rfl⟩
      · exact ⟨'|' :: (printListL ch ++ [')']), rfl⟩
    · split at h
      · rename_i hg
        subst hg
        cases ch with
        | nil => exact ⟨[')'], rfl⟩
        | cons x xs => exact ⟨'!' :: (printFilterL x ++ [')']), rfl⟩
      · split at h
        · rename_i hg
          subst hg
          obtain ⟨a, w, hch, _⟩ := avaOK3_inv ch h
          subst hch
          exact ⟨_, rfl⟩
        · split at h
          · rename_i hg
            subst hg
            obtain ⟨a, st, s, hch, _, ht, _⟩ := subOK_inv ch h
            subst hch
            rcases ht with ht | ht | ht <;> subst ht <;>
              exact ⟨_, by rw [printFilterL]; simp [berNewString, BerPacket.dataString]; rfl⟩
          · split at h
            · rename_i hg
              rcases hg with hg | hg | hg <;> subst hg
              · obtain ⟨a, w, hch, _⟩ := avaOK_inv ch h
                subst hch
                exact ⟨_, rfl⟩
              · obtain ⟨a, w, hch, _⟩ := avaOK_inv ch h
                subst hch
                exact ⟨_, rfl⟩
              · obtain ⟨a, w, hch, _⟩ := avaOK_inv ch h
                subst hch
                exact ⟨_, rfl⟩
            · cases h
  · split at h
    · rename_i hshape
      obtain ⟨hc, hty, hg, hch⟩ := hshape
      subst hc; subst hty; subst hg; subst hch
      exact ⟨_, rfl⟩
    · cases h

/-- On well-shaped trees the decompiler succeeds and produces exactly the
printed character sequence (joint strong induction for trees and child
lists). -/
theorem decompile_print_key : ∀ n : Nat,
    (∀ t : BerPacket, sizeOf t ≤ n → roundOK t = true →
      decompileFilter t = .ok (String.mk (printFilterL t))) ∧
    (∀ ch : List BerPacket, sizeOf ch ≤ n → roundOKList ch = true →
      decompileList ch = .ok (String.mk (printListL ch))) := by
  intro n
  induction n using Nat.strong_induction_on with
  | _ n ih =>
    constructor
    · intro t hs hr
      obtain ⟨c, ty, g, v, ch⟩ := t
      have hch_lt : sizeOf ch < n := by
        have : sizeOf ch < sizeOf (BerPacket.mk c ty g v ch) := by
          simp [BerPacket.mk.sizeOf_spec]
        omega
      rw [roundOK.eq_def] at hr
      try simp only [] at hr
      split at hr
      · rename_i hshape
        obtain ⟨hc, hty, hv⟩ := hshape
        subst hc; subst hty; subst hv
        split at hr
        · rename_i hg
          have hlist := (ih (sizeOf ch) hch_lt).2 ch (Nat.le_refl _) hr
          rcases hg with hg | hg <;> subst hg
          · rw [decompileFilter, hlist]
            rfl
          · rw [decompileFilter, hlist]
            rfl
        · split at hr
          · rename_i hg
            subst hg
            match ch, hr with
            | [x], hr =>
              have hx_lt : sizeOf x < n := by
                have : sizeOf x < sizeOf [x] := by simp; omega
                omega
              have hx := ((ih (sizeOf x) hx_lt).1 x (Nat.le_refl _) hr)
              rw [decompileFilter, hx]
              rfl
          · split at hr
            · rename_i hg
              subst hg
              obtain ⟨a, w, hch, _⟩ := avaOK3_inv ch hr
              subst hch
              rw [decompileFilter, printFilterL]
              refine congrArg Except.ok (String.ext ?_)
              simp [String.data_append, berNewString, BerPacket.dataString, String.toList]
            · split at hr
              · rename_i hg
                subst hg
                obtain ⟨a, st, s, hch, _, ht, _⟩ := subOK_inv ch hr
                subst hch
                rcases ht with ht | ht | ht <;> subst ht <;>
                  (rw [decompileFilter, printFilterL]
                   refine congrArg Except.ok (String.ext ?_)
                   simp [String.data_append, berNewString, BerPacket.dataString, String.toList])
              · split at hr
                · rename_i hg
                  obtain ⟨a, w, hch, _⟩ := avaOK_inv ch hr
                  subst hch
                  rcases hg with hg | hg | hg <;> subst hg <;>
                    (rw [decompileFilter, printFilterL]
                     refine congrArg Except.ok (String.ext ?_)
                     simp [String.data_append, berNewString, BerPacket.dataString, String.toList])
                · cases hr
      · split at hr
        · rename_i hshape
          obtain ⟨hc, hty, hg, hch⟩ := hshape
          subst hc; subst hty; subst hg; subst hch
          cases v with
          | str a =>
            rw [decompileFilter, printFilterL]
            refine congrArg Except.ok (String.ext ?_)
            simp [String.data_append, BerPacket.dataString, String.toList]
          | nil => cases hr
          | bool b => cases hr
          | int m => cases hr
          | bytes bs => cases hr
        · cases hr
    · intro ch hs hr
      cases ch with
      | nil => rw [decompileList, printListL]
      | cons x xs =>
        rw [roundOKList] at hr
        simp only [Bool.and_eq_true] at hr
        have hx_lt : sizeOf x < n := by
          have : sizeOf x < sizeOf (x :: xs) := by simp; omega
          omega
        have hxs_lt : sizeOf xs < n := by
          have : sizeOf xs < sizeOf (x :: xs) := by simp
          omega
        have hx := (ih (sizeOf x) hx_lt).1 x (Nat.le_refl _) hr.1
        have hxs := (ih (sizeOf xs) hxs_lt).2 xs (Nat.le_refl _) hr.2
        rw [decompileList, hx, hxs]
        try simp only []
        rw [printListL]
        rfl

/-- `opMatch` fails on a close parenthesis. -/
theorem opMatch_close_none (r : List Char) : opMatch (')' :: r) = none := rfl

/-- `endMatch` consumes a close parenthesis and trailing whitespace. -/
theorem endMatch_close (r : List Char) : endMatch (')' :: r) = some (skipWS r) := rfl

/-- `opMatch` fails on a leaf item: the attribute's first character is
neither whitespace nor a combinator. -/
theorem opMatch_item_none (attr : List Char) (ha : goodAttr attr = true) (X : List Char) :
    opMatch ('(' :: (attr ++ X)) = none := by
  obtain ⟨hne, hall, _⟩ := goodAttr_parts attr ha
  obtain ⟨a0, as, h⟩ : ∃ a0 as, attr = a0 :: as := by
    cases attr with
    | nil => exact absurd rfl hne
    | cons a0 as => exact ⟨a0, as, rfl⟩
  subst h
  rw [List.cons_append]
  have h0 : isAttrChar a0 = true := hall a0 (by simp)
  exact opMatch_attr_none a0 (as ++ X) (isAttrChar_not_ws a0 h0) (isAttrChar_not_comb a0 h0)

/-- The printed text of a well-shaped child list followed by a
whitespace-free tail has no leading whitespace. -/
theorem printListL_skipWS (ch : List BerPacket) (h : roundOKList ch = true)
    (tail : List Char) (htail : skipWS tail = tail) :
    skipWS (printListL ch ++ tail) = printListL ch ++ tail := by
  cases ch with
  | nil => rw [printListL]; simpa using htail
  | cons x xs =>
    rw [roundOKList] at h
    simp only [Bool.and_eq_true] at h
    obtain ⟨r0, hhead⟩ := printFilterL_head x h.1
    rw [printListL, hhead]
    simp only [List.cons_append, List.append_assoc]
    exact skipWS_cons '(' _ (by decide)

/-- `parse` on exactly the text the decompiler prints for a leaf item: the
leaf-item pattern fires and the encoded item is pushed. -/
theorem parseLoop_leaf (f : String) (attr : List Char) (ha : goodAttr attr = true)
    (o : String) (ho : o = "=" ∨ o = ">=" ∨ o = "<=" ∨ o = "~=")
    (v : List Char) (hv : goodVal v = true)
    (item : BerPacket) (henc : encodeItem (String.mk attr) o (String.mk v) = .ok item)
    (rest : List Char) (hr : skipWS rest = rest) (stack : List BerPacket) (bc : Nat) :
    parseLoop f ('(' :: (attr ++ (o.toList ++ (v ++ ')' :: rest)))) stack bc =
      parseLoop f rest (pushItem item stack) bc := by
  exact parseLoop_item f _ stack bc (String.mk attr) o (String.mk v) rest item
    (itemMatch_exact attr ha o ho v hv rest hr)
    (opMatch_item_none attr ha _)
    (endMatch_open_none _)
    henc

/-- Parsing the printed text of a well-shaped tree followed by any
whitespace-free remainder consumes exactly the printed text and pushes
exactly that tree (joint strong induction for trees and child lists; the
list statement folds the printed children onto the open frame). -/
theorem parse_print_key : ∀ n : Nat,
    (∀ t : BerPacket, sizeOf t ≤ n → roundOK t = true →
      ∀ (f : String) (rest : List Char), skipWS rest = rest →
        ∀ (stack : List BerPacket) (bc : Nat),
        parseLoop f (printFilterL t ++ rest) stack bc =
          parseLoop f rest (pushItem t stack) bc) ∧
    (∀ ch : List BerPacket, sizeOf ch ≤ n → roundOKList ch = true →
      ∀ (f : String) (rest : List Char), skipWS rest = rest →
        ∀ (u : BerPacket) (st : List BerPacket) (bc : Nat),
        parseLoop f (printListL ch ++ rest) (u :: st) bc =
          parseLoop f rest (List.foldl BerPacket.appendChild u ch :: st) bc) := by
  intro n
  induction n using Nat.strong_induction_on with
  | _ n ih =>
    constructor
    · intro t hs hr f rest hrest stack bc
      obtain ⟨c, ty, g, v, ch⟩ := t
      have hch_lt : sizeOf ch < n := by
        have : sizeOf ch < sizeOf (BerPacket.mk c ty g v ch) := by
          simp [BerPacket.mk.sizeOf_spec]
        omega
      have hwsc : skipWS (')' :: rest) = ')' :: rest := skipWS_cons ')' rest (by decide)
      rw [roundOK.eq_def] at hr
      try simp only [] at hr
      split at hr
      · rename_i hshape
        obtain ⟨hc, hty, hv⟩ := hshape
        subst hc; subst hty; subst hv
        split at hr
        · rename_i hg
          have hws : skipWS (printListL ch ++ (')' :: rest)) = printListL ch ++ (')' :: rest) :=
            printListL_skipWS ch hr (')' :: rest) hwsc
          have hlist := (ih (sizeOf ch) hch_lt).2 ch (Nat.le_refl _) hr f (')' :: rest) hwsc
          rcases hg with hg | hg <;> subst hg
          · rw [printFilterL]
            rw [show ('(' :: '&' :: (printListL ch ++ [')'])) ++ rest =
                '(' :: '&' :: (printListL ch ++ (')' :: rest)) from by simp]
            rw [parseLoop_op f _ stack bc '&' _ (opMatch_comb '&' (by decide) _ hws)]
            rw [show encodeComb '&' = (⟨128, 32, 0, .nil, []⟩ : BerPacket) from rfl]
            rw [hlist ⟨128, 32, 0, .nil, []⟩ stack (bc + 1)]
            rw [foldl_appendChild, List.nil_append]
            rw [parseLoop_end f _ _ (bc + 1) rest (by rw [endMatch_close, hrest])
              (Nat.succ_ne_zero bc) (opMatch_close_none rest)]
            rw [popStack_push]
            rfl
          · rw [printFilterL]
            rw [show ('(' :: '|' :: (printListL ch ++ [')'])) ++ rest =
                '(' :: '|' :: (printListL ch ++ (')' :: rest)) from by simp]
            rw [parseLoop_op f _ stack bc '|' _ (opMatch_comb '|' (by decide) _ hws)]
            rw [show encodeComb '|' = (⟨128, 32, 1, .nil, []⟩ : BerPacket) from rfl]
            rw [hlist ⟨128, 32, 1, .nil, []⟩ stack (bc + 1)]
            rw [foldl_appendChild, List.nil_append]
            rw [parseLoop_end f _ _ (bc + 1) rest (by rw [endMatch_close, hrest])
              (Nat.succ_ne_zero bc) (opMatch_close_none rest)]
            rw [popStack_push]
            rfl
        · split at hr
          · rename_i hg
            subst hg
            match ch, hr with
            | [x], hr =>
              have hx_lt : sizeOf x < n := by
                have : sizeOf x < sizeOf [x] := by simp; omega
                omega
              obtain ⟨r0, hhead⟩ := printFilterL_head x hr
              have hws : skipWS (printFilterL x ++ (')' :: rest)) =
                  printFilterL x ++ (')' :: rest) := by
                rw [hhead]
                simp only [List.cons_append]
                exact skipWS_cons '(' _ (by decide)
              rw [printFilterL]
              rw [show ('(' :: '!' :: (printFilterL x ++ [')'])) ++ rest =
                  '(' :: '!' :: (printFilterL x ++ (')' :: rest)) from by simp]
              rw [parseLoop_op f _ stack bc '!' _ (opMatch_comb '!' (by decide) _ hws)]
              rw [show encodeComb '!' = (⟨128, 32, 2, .nil, []⟩ : BerPacket) from rfl]
              rw [(ih (sizeOf x) hx_lt).1 x (Nat.le_refl _) hr f (')' :: rest) hwsc
                (⟨128, 32, 2, .nil, []⟩ :: stack) (bc + 1)]
              rw [show pushItem x (⟨128, 32, 2, BerValue.nil, []⟩ :: stack) =
                  (⟨128, 32, 2, BerValue.nil, [x]⟩ : BerPacket) :: stack from rfl]
              rw [parseLoop_end f _ _ (bc + 1) rest (by rw [endMatch_close, hrest])
                (Nat.succ_ne_zero bc) (opMatch_close_none rest)]
              rw [popStack_push]
              rfl
          · split at hr
            · rename_i hg
              subst hg
              obtain ⟨a, w, hch, hga, hgw, hwstar, hwild⟩ := avaOK3_inv ch hr
              subst hch
              rw [show printFilterL ⟨128, 32, 3, BerValue.nil,
                    [berNewString ClassUniversal TypePrimative TagOctetString a,
                     berNewString ClassUniversal TypePrimative TagOctetString w]⟩ =
                  '(' :: (a.toList ++ '=' :: (w.toList ++ [')'])) from rfl]
              rw [show ('(' :: (a.toList ++ '=' :: (w.toList ++ [')']))) ++ rest =
                  '(' :: (a.toList ++ ('=' :: (w.toList ++ ')' :: rest))) from by simp]
              exact parseLoop_leaf f a.toList hga "=" (Or.inl rfl) w.toList hgw _
                (encodeItem_eq_plain a w hwstar hwild) rest hrest stack bc
            · split at hr
              · rename_i hg
                subst hg
                obtain ⟨a, tg, s, hch, hga, htg, hsne, hgs⟩ := subOK_inv ch hr
                subst hch
                have hsl : s.toList ≠ [] := fun h => hsne (String.ext h)
                rcases htg with htg | htg | htg <;> subst htg
                · rw [show printFilterL ⟨128, 32, 4, BerValue.nil,
                        [berNewString ClassUniversal TypePrimative TagOctetString a,
                         ⟨ClassUniversal, TypeConstructed, TagSequence, BerValue.nil,
                          [berNewString ClassContext TypePrimative 0 s]⟩]⟩ =
                      '(' :: (a.toList ++ '=' :: ((s.toList ++ ['*']) ++ [')'])) from rfl]
                  rw [show ('(' :: (a.toList ++ '=' :: ((s.toList ++ ['*']) ++ [')']))) ++ rest =
                      '(' :: (a.toList ++ ('=' :: ((s.toList ++ ['*']) ++ ')' :: rest))) from by simp]
                  exact parseLoop_leaf f a.toList hga "=" (Or.inl rfl) (s.toList ++ ['*'])
                    (goodVal_append s.toList (goodSeg_goodVal s.toList hgs) ['*'] (by decide)) _
                    (encodeItem_sub_initial a s.toList hgs hsl) rest hrest stack bc
                · rw [show printFilterL ⟨128, 32, 4, BerValue.nil,
                        [berNewString ClassUniversal TypePrimative TagOctetString a,
                         ⟨ClassUniversal, TypeConstructed, TagSequence, BerValue.nil,
                          [berNewString ClassContext TypePrimative 1 s]⟩]⟩ =
                      '(' :: (a.toList ++ '=' :: (('*' :: (s.toList ++ ['*'])) ++ [')'])) from rfl]
                  rw [show ('(' :: (a.toList ++ '=' :: (('*' :: (s.toList ++ ['*'])) ++ [')']))) ++ rest =
                      '(' :: (a.toList ++ ('=' :: (('*' :: (s.toList ++ ['*'])) ++ ')' :: rest))) from by simp]
                  exact parseLoop_leaf f a.toList hga "=" (Or.inl rfl) ('*' :: (s.toList ++ ['*']))
                    (goodVal_append ['*'] (by decide) (s.toList ++ ['*'])
                      (goodVal_append s.toList (goodSeg_goodVal s.toList hgs) ['*'] (by decide))) _
                    (encodeItem_sub_any a s.toList hgs hsl) rest hrest stack bc
                · rw [show printFilterL ⟨128, 32, 4, BerValue.nil,
                        [berNewString ClassUniversal TypePrimative TagOctetString a,
                         ⟨ClassUniversal, TypeConstructed, TagSequence, BerValue.nil,
                          [berNewString ClassContext TypePrimative 2 s]⟩]⟩ =
                      '(' :: (a.toList ++ '=' :: (('*' :: s.toList) ++ [')'])) from rfl]
                  rw [show ('(' :: (a.toList ++ '=' :: (('*' :: s.toList) ++ [')']))) ++ rest =
                      '(' :: (a.toList ++ ('=' :: (('*' :: s.toList) ++ ')' :: rest))) from by simp]
                  exact parseLoop_leaf f a.toList hga "=" (Or.inl rfl) ('*' :: s.toList)
                    (goodVal_append ['*'] (by decide) s.toList (goodSeg_goodVal s.toList hgs)) _
                    (encodeItem_sub_final a s.toList hgs hsl) rest hrest stack bc
              · split at hr
                · rename_i hg
                  obtain ⟨a, w, hch, hga, hgw⟩ := avaOK_inv ch hr
                  subst hch
                  rcases hg with hg | hg | hg <;> subst hg
                  · rw [show printFilterL ⟨128, 32, 5, BerValue.nil,
                          [berNewString ClassUniversal TypePrimative TagOctetString a,
                           berNewString ClassUniversal TypePrimative TagOctetString w]⟩ =
                        '(' :: (a.toList ++ '>' :: '=' :: (w.toList ++ [')'])) from rfl]
                    rw [show ('(' :: (a.toList ++ '>' :: '=' :: (w.toList ++ [')']))) ++ rest =
                        '(' :: (a.toList ++ ('>' :: '=' :: (w.toList ++ ')' :: rest))) from by simp]
                    exact parseLoop_leaf f a.toList hga ">=" (Or.inr (Or.inl rfl)) w.toList hgw _
                      (encodeItem_cmp a w ">=" (Or.inl rfl)) rest hrest stack bc
                  · rw [show printFilterL ⟨128, 32, 6, BerValue.nil,
                          [berNewString ClassUniversal TypePrimative TagOctetString a,
                           berNewString ClassUniversal TypePrimative TagOctetString w]⟩ =
                        '(' :: (a.toList ++ '<' :: '=' :: (w.toList ++ [')'])) from rfl]
                    rw [show ('(' :: (a.toList ++ '<' :: '=' :: (w.toList ++ [')']))) ++ rest =
                        '(' :: (a.toList ++ ('<' :: '=' :: (w.toList ++ ')' :: rest))) from by simp]
                    exact parseLoop_leaf f a.toList hga "<=" (Or.inr (Or.inr (Or.inl rfl))) w.toList hgw _
                      (encodeItem_cmp a w "<=" (Or.inr (Or.inl rfl))) rest hrest stack bc
                  · rw [show printFilterL ⟨128, 32, 8, BerValue.nil,
                          [berNewString ClassUniversal TypePrimative TagOctetString a,
                           berNewString ClassUniversal TypePrimative TagOctetString w]⟩ =
                        '(' :: (a.toList ++ '~' :: '=' :: (w.toList ++ [')'])) from rfl]
                    rw [show ('(' :: (a.toList ++ '~' :: '=' :: (w.toList ++ [')']))) ++ rest =
                        '(' :: (a.toList ++ ('~' :: '=' :: (w.toList ++ ')' :: rest))) from by simp]
                    exact parseLoop_leaf f a.toList hga "~=" (Or.inr (Or.inr (Or.inr rfl))) w.toList hgw _
                      (encodeItem_cmp a w "~=" (Or.inr (Or.inr rfl))) rest hrest stack bc
                · cases hr
      · split at hr
        · rename_i hshape
          obtain ⟨hc, hty, hg, hch⟩ := hshape
          subst hc; subst hty; subst hg; subst hch
          cases v with
          | str a =>
            rw [show printFilterL ⟨128, 0, 7, BerValue.str a, []⟩ =
                '(' :: (a.toList ++ '=' :: '*' :: [')']) from rfl]
            rw [show ('(' :: (a.toList ++ '=' :: '*' :: [')'])) ++ rest =
                '(' :: (a.toList ++ ('=' :: (['*'] ++ ')' :: rest))) from by simp]
            exact parseLoop_leaf f a.toList hr "=" (Or.inl rfl) ['*'] (by decide) _
              (encodeItem_present a) rest hrest stack bc
          | nil => cases hr
          | bool b => cases hr
          | int m => cases hr
          | bytes bs => cases hr
        · cases hr
    · intro ch hs hr f rest hrest u st bc
      cases ch with
      | nil =>
        rw [printListL, List.nil_append, List.foldl_nil]
      | cons x xs =>
        rw [roundOKList] at hr
        simp only [Bool.and_eq_true] at hr
        have hx_lt : sizeOf x < n := by
          have : sizeOf x < sizeOf (x :: xs) := by simp; omega
          omega
        have hxs_lt : sizeOf xs < n := by
          have : sizeOf xs < sizeOf (x :: xs) := by simp
          omega
        rw [printListL]
        rw [show (printFilterL x ++ printListL xs) ++ rest =
            printFilterL x ++ (printListL xs ++ rest) from by simp]
        have hws2 : skipWS (printListL xs ++ rest) = printListL xs ++ rest :=
          printListL_skipWS xs hr.2 rest hrest
        rw [(ih (sizeOf x) hx_lt).1 x (Nat.le_refl _) hr.1 f (printListL xs ++ rest) hws2
          (u :: st) bc]
        rw [show pushItem x (u :: st) = u.appendChild x :: st from rfl]
        rw [(ih (sizeOf xs) hxs_lt).2 xs (Nat.le_refl _) hr.2 f rest hrest
          (u.appendChild x) st bc]
        rw [List.foldl_cons]

/-- A well-shaped tree compiles back from its printed text. -/
theorem CompileFilter_print (t : BerPacket) (h : roundOK t = true) :
    CompileFilter (String.mk (printFilterL t)) = .ok t := by
  obtain ⟨r0, hhead⟩ := printFilterL_head t h
  unfold CompileFilter
  rw [show (String.mk (printFilterL t)).toList = printFilterL t from rfl]
  rw [hhead]
  rw [if_neg (by simp)]
  rw [if_neg (by simp)]
  rw [← hhead]
  have hkey := (parse_print_key (sizeOf t)).1 t (Nat.le_refl _) h
    (String.mk (printFilterL t)) [] rfl [] 0
  rw [show printFilterL t ++ ([] : List Char) = printFilterL t from by simp] at hkey
  rw [hkey]
  rw [show pushItem t [] = [t] from rfl]
  exact parseLoop_done (String.mk (printFilterL t)) [t] 0 t rfl

/-- **C2** (corrected).  `DecompileFilter` is not a faithful inverse of
`CompileFilter` on every accepted extensible-free filter — see the
counterexample, where a multi-segment substrings filter decompiles to a
string that recompiles to a different tree.  What holds is: on every
well-shaped compiled tree (combinators over comparisons, present leaves and
single-segment substrings nodes) decompilation succeeds and recompiling the
decompiled string yields the same tree. -/
theorem c2_filter_round_trip (t : BerPacket) (h : roundOK t = true) :
    ∃ s : String, decompileFilter t = .ok s ∧ CompileFilter s = .ok t :=
  ⟨String.mk (printFilterL t),
   (decompile_print_key (sizeOf t)).1 t (Nat.le_refl _) h,
   CompileFilter_print t h⟩

/-- Witness for C2 at the compiled tree of `(cn=bob)`. -/
theorem c2_filter_round_trip_witness :
    roundOK ⟨128, 32, 3, .nil, [berNewString 0 0 4 "cn", berNewString 0 0 4 "bob"]⟩ = true ∧
    ∃ s : String,
      decompileFilter ⟨128, 32, 3, .nil,
        [berNewString 0 0 4 "cn", berNewString 0 0 4 "bob"]⟩ = .ok s ∧
      CompileFilter s = .ok ⟨128, 32, 3, .nil,
        [berNewString 0 0 4 "cn", berNewString 0 0 4 "bob"]⟩ :=
  ⟨by decide, c2_filter_round_trip _ (by decide)⟩

/-- Counterexample to C2 as stated: `(cn=ab*cd*ef)` compiles to a
substrings tree with three segments, decompiling that tree yields only
`(cn=ab*)` (the decompiler emits just the first segment), and that string
recompiles to a different tree — the decompiled string is not equivalent to
the input filter. -/
theorem c2_filter_round_trip_counterexample :
    CompileFilter "(cn=ab*cd*ef)" = .ok ⟨128, 32, 4, .nil, [berNewString 0 0 4 "cn",
        ⟨0, 32, 16, .nil, [berNewString 128 0 0 "ab", berNewString 128 0 1 "cd",
          berNewString 128 0 2 "ef"]⟩]⟩ ∧
    decompileFilter ⟨128, 32, 4, .nil, [berNewString 0 0 4 "cn",
        ⟨0, 32, 16, .nil, [berNewString 128 0 0 "ab", berNewString 128 0 1 "cd",
          berNewString 128 0 2 "ef"]⟩]⟩ = .ok "(cn=ab*)" ∧
    ¬ (CompileFilter "(cn=ab*)" = .ok ⟨128, 32, 4, .nil, [berNewString 0 0 4 "cn",
        ⟨0, 32, 16, .nil, [berNewString 128 0 0 "ab", berNewString 128 0 1 "cd",
          berNewString 128 0 2 "ef"]⟩]⟩) :=
  ⟨by decide, by decide, by decide⟩

/-- **C4** (confirmed).  Compiling `(cn=ab*cd*ef)` yields a Substrings node
whose segment sequence is initial `ab`, any `cd`, final `ef`; compiling
`(cn=*ab)` yields a Substrings node with only the final segment `ab`. -/
theorem c4_substring_split :
    CompileFilter "(cn=ab*cd*ef)" = .ok ⟨ClassContext, TypeConstructed, FilterSubstrings, .nil,
      [berNewString ClassUniversal TypePrimative TagOctetString "cn",
       ⟨ClassUniversal, TypeConstructed, TagSequence, .nil,
        [berNewString ClassContext TypePrimative FilterSubstringsInitial "ab",
         berNewString ClassContext TypePrimative FilterSubstringsAny "cd",
         berNewString ClassContext TypePrimative FilterSubstringsFinal "ef"]⟩]⟩ ∧
    CompileFilter "(cn=*ab)" = .ok ⟨ClassContext, TypeConstructed, FilterSubstrings, .nil,
      [berNewString ClassUniversal TypePrimative TagOctetString "cn",
       ⟨ClassUniversal, TypeConstructed, TagSequence, .nil,
        [berNewString ClassContext TypePrimative FilterSubstringsFinal "ab"]⟩]⟩ :=
  ⟨by decide, by decide⟩

/-- **C7** (confirmed).  `closeAllChannels` empties the correlation table
and tears the connection down, and every outstanding message ID observes
its channel closing (a `nil` packet), which the blocked caller translates
into the network error "Could not retrieve message" instead of staying
blocked. -/
theorem c7_close_releases_blocked (st : DispatchState) :
    (closeAllChannels st).1.chanResults = [] ∧
    (closeAllChannels st).1.connected = false ∧
    ((closeAllChannels st).2.map Prod.fst) = st.chanResults ∧
    ∀ p ∈ (closeAllChannels st).2,
      searchReceive p.2 = some ⟨.network, "Could not retrieve message"⟩ := by
  refine ⟨rfl, rfl, ?_, ?_⟩
  · show List.map Prod.fst (st.chanResults.map (fun id => (id, (none : Option BerPacket)))) =
      st.chanResults
    rw [List.map_map]
    exact List.map_id st.chanResults
  intro p hp
  simp only [closeAllChannels, List.mem_map] at hp
  obtain ⟨id, _, hp⟩ := hp
  subst hp
  rfl

/-- **C9** (corrected).  `GetAttributeValues` matches the stored attribute
name *case-sensitively*, not case-insensitively: it returns the values of
the first attribute whose stored name is exactly the queried string, and a
name differing only in letter case is not found (see the counterexample).
-/
theorem c9_attribute_lookup (e : Entry) (attrName : String) :
    Entry.GetAttributeValues e attrName =
      match List.find? (fun a => a.name == attrName) e.attributes with
      | some a => a.values
      | none => [] := by
  unfold Entry.GetAttributeValues
  induction e.attributes with
  | nil => rfl
  | cons a rest ih =>
    rw [lookupAttr, List.find?]
    by_cases h : a.name = attrName
    · simp [h]
    · have hb : (a.name == attrName) = false := by simp [h]
      simp only [hb, if_neg h]
      exact ih

/-- Counterexample to C9 as stated: an entry storing only the attribute
`CN` queried as `cn` (same name up to letter case) yields no values — the
lookup in `entry.go`/`search.go` compares with Go `==`, which is
case-sensitive. -/
theorem c9_attribute_lookup_counterexample :
    Entry.GetAttributeValues ⟨"cn=bob", [⟨"CN", ["bob"]⟩]⟩ "cn" = [] ∧
    Entry.GetAttributeValue ⟨"cn=bob", [⟨"CN", ["bob"]⟩]⟩ "cn" = "" ∧
    ¬ (Entry.GetAttributeValues ⟨"cn=bob", [⟨"CN", ["bob"]⟩]⟩ "cn" = ["bob"]) :=
  ⟨by decide, by decide, by decide⟩

/-- The attribute loop of `encodeAddRequest` fails at a value-less
attribute, naming it. -/
theorem encodeAttrList_empty_error : ∀ (l : List EntryAttribute),
    (∃ a ∈ l, a.values = []) →
    ∃ b ∈ l, b.values = [] ∧
      encodeAttrList l = .error ⟨.encoding, "Attribute " ++ b.name ++ " had no values."⟩ := by
  intro l
  induction l with
  | nil => intro h; simp at h
  | cons a rest ih =>
    intro h
    by_cases ha : a.values = []
    · exact ⟨a, by simp, ha, by rw [encodeAttrList, if_pos ha]⟩
    · have h2 : ∃ x ∈ rest, x.values = [] := by
        obtain ⟨x, hx, hxv⟩ := h
        rcases List.mem_cons.mp hx with h3 | h3
        · subst h3; exact absurd hxv ha
        · exact ⟨x, h3, hxv⟩
      obtain ⟨b, hb, hbv, hbe⟩ := ih h2
      refine ⟨b, List.mem_cons_of_mem a hb, hbv, ?_⟩
      rw [encodeAttrList, if_neg ha, hbe]

/-- **C6** (confirmed).  When any attribute of an `AddRequest` has no
values, the send phase of `Add` returns the encoding error naming such an
attribute, and it returns before anything is written to the socket and
before any correlation-table entry is created. -/
theorem c6_add_empty_attribute (st : DispatchState) (req : AddRequest)
    (h : ∃ a ∈ req.attributes, a.values = []) :
    ∃ b ∈ req.attributes, b.values = [] ∧
      (AddSend st req).2 = .error ⟨.encoding, "Attribute " ++ b.name ++ " had no values."⟩ ∧
      (AddSend st req).1.written = st.written ∧
      (AddSend st req).1.chanResults = st.chanResults := by
  obtain ⟨b, hb, hbv, hbe⟩ := encodeAttrList_empty_error req.attributes h
  have henc : encodeAddRequest req =
      .error ⟨.encoding, "Attribute " ++ b.name ++ " had no values."⟩ := by
    unfold encodeAddRequest
    rw [hbe]
  refine ⟨b, hb, hbv, ?_⟩
  unfold AddSend nextMessageID
  by_cases hc : st.connected <;> simp [hc, henc]

/-- Witness for C6: adding an entry with a single value-less attribute on a
fresh connection. -/
theorem c6_add_empty_attribute_witness :
    (∃ a ∈ [(⟨"cn", []⟩ : EntryAttribute)], a.values = []) ∧
    ∃ b ∈ (AddRequest.mk "dc=x" [⟨"cn", []⟩] []).attributes, b.values = [] ∧
      (AddSend initialDispatchState ⟨"dc=x", [⟨"cn", []⟩], []⟩).2 =
        .error ⟨.encoding, "Attribute " ++ b.name ++ " had no values."⟩ ∧
      (AddSend initialDispatchState ⟨"dc=x", [⟨"cn", []⟩], []⟩).1.written =
        initialDispatchState.written ∧
      (AddSend initialDispatchState ⟨"dc=x", [⟨"cn", []⟩], []⟩).1.chanResults =
        initialDispatchState.chanResults :=
  ⟨by decide, c6_add_empty_attribute initialDispatchState ⟨"dc=x", [⟨"cn", []⟩], []⟩ (by decide)⟩

/-- **C8** (corrected).  Abandon *can* return an error — on a closed
connection the send fails with a network error (see the counterexample);
the file's own comment says as much.  What holds on a live connection with
a fresh message ID: the abandon request carrying the target ID is written,
no response is waited for, the correlation-table entry is released again,
and no error is returned. -/
theorem c8_abandon_no_wait (st : DispatchState) (abandonId : Nat)
    (hconn : st.connected = true) (hfresh : st.nextId ∉ st.chanResults) :
    (AbandonCall st abandonId).2 = none ∧
    (AbandonCall st abandonId).1.written = st.written ++
      [requestBuildPacket st.nextId
        (berNewInteger ClassApplication TypePrimative ApplicationAbandonRequest abandonId) []] ∧
    (AbandonCall st abandonId).1.chanResults = st.chanResults := by
  unfold AbandonCall nextMessageID sendMessage finishMessage
  simp only [hconn, if_pos, if_true]
  refine ⟨trivial, trivial, ?_⟩
  show ((st.chanResults ++ [st.nextId]).filter (fun i => i ≠ st.nextId)) = st.chanResults
  rw [List.filter_append]
  have h1 : st.chanResults.filter (fun i => i ≠ st.nextId) = st.chanResults := by
    rw [List.filter_eq_self]
    intro a ha
    simp only [ne_eq, decide_eq_true_eq]
    intro hax
    exact hfresh (hax ▸ ha)
  rw [h1]
  simp

/-- Witness for C8 on a fresh connection. -/
theorem c8_abandon_no_wait_witness :
    initialDispatchState.connected = true ∧
    initialDispatchState.nextId ∉ initialDispatchState.chanResults ∧
    ((AbandonCall initialDispatchState 7).2 = none ∧
     (AbandonCall initialDispatchState 7).1.written = initialDispatchState.written ++
       [requestBuildPacket initialDispatchState.nextId
         (berNewInteger ClassApplication TypePrimative ApplicationAbandonRequest 7) []] ∧
     (AbandonCall initialDispatchState 7).1.chanResults =
       initialDispatchState.chanResults) :=
  ⟨rfl, by decide, c8_abandon_no_wait initialDispatchState 7 rfl (by decide)⟩

/-- Counterexample to C8 as stated: on a closed connection Abandon returns
the network error "Connection closed" to its caller — it does not "never
return an error". -/
theorem c8_abandon_counterexample :
    (AbandonCall ⟨5, [], [], false⟩ 3).2 = some ⟨.network, "Connection closed"⟩ :=
  by decide

/-- **C10** (confirmed).  `encodeCompareRequest` builds its
attribute-value assertion with the filter compiler's `encodeItem` under
operator `=`, so a Compare whose Value is the literal `*` carries a
Present filter node, and one whose Value contains an unescaped `*` carries
a Substrings node — not an equality assertion. -/
theorem c10_compare_item_encoding (req : CompareRequest) :
    (req.value = "*" →
      encodeCompareRequest req = .ok
        (((berEncode ClassApplication TypeConstructed ApplicationCompareRequest).appendChild
          (berNewString ClassUniversal TypePrimative TagOctetString req.dn)).appendChild
          (berNewString ClassContext TypePrimative FilterPresent req.name))) ∧
    (hasUnescapedWildcard req.value.toList = true → ¬(req.value = "*") →
      ∀ p, encodeCompareRequest req = .ok p →
        ∃ segs, p = ((berEncode ClassApplication TypeConstructed
            ApplicationCompareRequest).appendChild
          (berNewString ClassUniversal TypePrimative TagOctetString req.dn)).appendChild
          ⟨ClassContext, TypeConstructed, FilterSubstrings, .nil,
           [berNewString ClassUniversal TypePrimative TagOctetString req.name,
            ⟨ClassUniversal, TypeConstructed, TagSequence, .nil, segs⟩]⟩) := by
  constructor
  · intro hv
    unfold encodeCompareRequest
    have he : encodeItem req.name "=" req.value =
        .ok (berNewString ClassContext TypePrimative FilterPresent req.name) := by
      rw [hv]
      exact encodeItem_present req.name
    rw [he]
  · intro hwild hv p hp
    unfold encodeCompareRequest at hp
    unfold encodeItem at hp
    rw [if_neg (by decide)] at hp
    rw [if_neg (by simp [hv])] at hp
    rw [if_pos (by simp; exact hwild)] at hp
    unfold encodeSubStringMatch at hp
    rcases hs : subLoop req.value.toList true [] with e | segs
    · rw [hs] at hp
      cases hp
    · rw [hs] at hp
      refine ⟨segs, ?_⟩
      cases hp
      rfl

/-- From a live state whose counter holds `k < 2^64`, the i-th handed-out
message ID is `(k + i) % 2^64`. -/
theorem messageIDsFrom_formula : ∀ (n k : Nat) (ch : List Nat) (w : List BerPacket),
    k < UINT64_MOD →
    messageIDsFrom ⟨k, ch, w, true⟩ n = (List.range n).map (fun i => (k + i) % UINT64_MOD) := by
  intro n
  induction n with
  | zero => intro k ch w hk; rfl
  | succ n ih =>
    intro k ch w hk
    rw [messageIDsFrom]
    have hnext : nextMessageID ⟨k, ch, w, true⟩ =
        (k, ⟨(k + 1) % UINT64_MOD, ch, w, true⟩) := by
      unfold nextMessageID
      simp
    rw [hnext]
    try simp only []
    rw [ih ((k + 1) % UINT64_MOD) ch w (Nat.mod_lt _ (by decide))]
    rw [List.range_succ_eq_map, List.map_cons, List.map_map]
    congr 1
    · rw [Nat.add_zero]
      exact (Nat.mod_eq_of_lt hk).symm
    · apply List.map_congr_left
      intro i _
      simp only [Function.comp]
      rw [Nat.mod_add_mod, Nat.add_assoc, Nat.add_comm 1 i]

/-- The first `n` IDs of a fresh connection, in closed form. -/
theorem messageIDs_formula (n : Nat) :
    messageIDs n = (List.range n).map (fun i => (1 + i) % UINT64_MOD) :=
  messageIDsFrom_formula n 1 [] [] (by decide)

/-- **C1** (corrected).  The message-ID counter is a Go `uint64`, so after
`2^64` handouts it wraps and IDs repeat (see the counterexample): the IDs
are *not* pairwise distinct for the unbounded life of a connection.  What
holds below the wrap: the first `n < 2^64` IDs handed out are exactly
`1, 2, …, n` — pairwise distinct, strictly increasing, starting at 1. -/
theorem c1_message_ids (n : Nat) (h : n < UINT64_MOD) :
    messageIDs n = List.range' 1 n ∧ (messageIDs n).Pairwise (· < ·) ∧
    (0 < n → (messageIDs n).head? = some 1) := by
  have hform : messageIDs n = List.range' 1 n := by
    rw [messageIDs_formula n, List.range'_eq_map_range]
    apply List.map_congr_left
    intro i hi
    have hi2 : i < n := List.mem_range.mp hi
    exact Nat.mod_eq_of_lt (by omega)
  refine ⟨hform, hform ▸ List.pairwise_lt_range' 1 n, ?_⟩
  intro hn
  rw [hform]
  cases n with
  | zero => omega
  | succ m => rfl

/-- Witness for C1 at `n = 3`. -/
theorem c1_message_ids_witness :
    3 < UINT64_MOD ∧ (messageIDs 3 = List.range' 1 3 ∧
      (messageIDs 3).Pairwise (· < ·) ∧ (0 < 3 → (messageIDs 3).head? = some 1)) :=
  ⟨by decide, c1_message_ids 3 (by decide)⟩

/-- Counterexample to C1 as stated: over the `2^64 + 1` handouts of a
connection's lifetime the IDs repeat (the `uint64` counter wraps, handing
out 1 again), so the sequence is not pairwise distinct. -/
theorem c1_message_ids_counterexample :
    ¬ (messageIDs (UINT64_MOD + 1)).Nodup := by
  intro h
  rw [messageIDs_formula (UINT64_MOD + 1)] at h
  rw [List.nodup_iff_injective_get] at h
  have h0 : (0 : Nat) <
      ((List.range (UINT64_MOD + 1)).map (fun i => (1 + i) % UINT64_MOD)).length := by simp
  have hM : UINT64_MOD <
      ((List.range (UINT64_MOD + 1)).map (fun i => (1 + i) % UINT64_MOD)).length := by simp
  have e0 : ((List.range (UINT64_MOD + 1)).map (fun i => (1 + i) % UINT64_MOD)).get ⟨0, h0⟩
      = 1 := by
    simp only [List.get_eq_getElem, List.getElem_map, List.getElem_range]
    rw [Nat.add_zero]
    exact Nat.mod_eq_of_lt (by decide)
  have eM : ((List.range (UINT64_MOD + 1)).map (fun i => (1 + i) % UINT64_MOD)).get
      ⟨UINT64_MOD, hM⟩ = 1 := by
    simp only [List.get_eq_getElem, List.getElem_map, List.getElem_range]
    rw [Nat.add_mod_right]
    exact Nat.mod_eq_of_lt (by decide)
  have heq := h (e0.trans eM.symm)
  have hval : (0 : Nat) = UINT64_MOD := congrArg Fin.val heq
  exact absurd hval (by decide)

/-- The paging-stub server of the spec's paging scenario: response `i`
carries `pages i` as its entries and one paging control, whose cookie is
`ck i` for the first `K` responses and empty from response `K` on. -/
def pagedServer (pages : Nat → List Entry) (ck : Nat → List Nat) (K : Nat) : Nat → SearchResult :=
  fun i => ⟨pages i, [], [.paging 0 (if i < K then ck i else [])]⟩

/-- The paging control of the stub's i-th response, as `FindControl` sees
it. -/
theorem pagedServer_find (pages : Nat → List Entry) (ck : Nat → List Nat) (K i : Nat) :
    FindControl (pagedServer pages ck K i).controls ControlTypePaging =
      some (.paging 0 (if i < K then ck i else [])) := rfl

/-- Running the paging loop against the stub with `r` non-empty cookies
still to come: it issues exactly `r + 1` further requests (the first with
the incoming cookie, then one per returned cookie), accumulates the pages'
entries and controls in order, and terminates holding no paging control. -/
theorem searchWithPagingLoop_run (pages : Nat → List Entry) (ck : Nat → List Nat) (K : Nat)
    (hck : ∀ i, i < K → ck i ≠ []) :
    ∀ (r fuel : Nat) (acc : SearchResult) (size : Nat) (cookie : List Nat)
      (log : List (Nat × List Nat)),
      log.length + r = K → r < fuel →
      searchWithPagingLoop (pagedServer pages ck K) fuel acc size cookie log =
        some (⟨acc.entries ++ ((List.range' log.length (r + 1)).map pages).flatten,
               acc.referrals,
               acc.controls ++ (List.range' log.length (r + 1)).map
                 (fun i => Control.paging 0 (if i < K then ck i else []))⟩,
              log ++ (size, cookie) :: (List.range' log.length r).map (fun i => (size, ck i)),
              none) := by
  intro r
  induction r with
  | zero =>
    intro fuel acc size cookie log hK hfuel
    match fuel, hfuel with
    | m + 1, _ =>
      rw [searchWithPagingLoop]
      try simp only []
      rw [pagedServer_find]
      have hLK : ¬ (log.length < K) := by omega
      rw [if_neg hLK]
      try simp only []
      rw [if_pos trivial]
      simp [accumulatePage, pagedServer, List.range'_succ, if_neg hLK]
  | succ r ih =>
    intro fuel acc size cookie log hK hfuel
    match fuel, hfuel with
    | m + 1, hfuel =>
      rw [searchWithPagingLoop]
      try simp only []
      rw [pagedServer_find]
      have hLK : log.length < K := by omega
      rw [if_pos hLK]
      try simp only []
      rw [if_neg (hck log.length hLK)]
      rw [ih m (accumulatePage acc (pagedServer pages ck K log.length)) size
        (ck log.length) (log ++ [(size, cookie)]) (by simp; omega) (by omega)]
      simp only [List.length_append, List.length_cons, List.length_nil, Nat.zero_add]
      rw [List.range'_succ log.length (r + 1) 1, List.range'_succ log.length r 1]
      simp [accumulatePage, pagedServer, if_pos hLK, List.flatten_cons]

/-- **C3** (corrected).  Against a stub returning a non-empty cookie
exactly `K` times and then an empty cookie, `SearchWithPaging` issues
exactly `K + 1` search requests and returns the union (concatenation) of
all pages' entries — but it never issues the additional final paging-size-0
release request the claim describes: both loop exits first set the paging
control reference to nil, so the release branch after the loop is dead (see
the counterexample). -/
theorem c3_paging_loop (pages : Nat → List Entry) (ck : Nat → List Nat) (K : Nat)
    (hck : ∀ i, i < K → ck i ≠ []) (pagingSize fuel : Nat) (hfuel : K < fuel) :
    SearchWithPaging (pagedServer pages ck K) pagingSize fuel =
      some (⟨((List.range (K + 1)).map pages).flatten,
             [],
             (List.range (K + 1)).map (fun i => Control.paging 0 (if i < K then ck i else []))⟩,
            (pagingSize, []) :: (List.range K).map (fun i => (pagingSize, ck i))) ∧
    ((pagingSize, []) :: (List.range K).map (fun i => (pagingSize, ck i))).length = K + 1 := by
  constructor
  · unfold SearchWithPaging
    rw [searchWithPagingLoop_run pages ck K hck K fuel ⟨[], [], []⟩ pagingSize [] []
      (by simp) hfuel]
    simp [List.range_eq_range']
  · simp

/-- Witness for C3 with one non-empty cookie (`K = 1`). -/
theorem c3_paging_loop_witness :
    (∀ i, i < 1 → (fun _ : Nat => [7]) i ≠ ([] : List Nat)) ∧ (1 < 3) ∧
    (SearchWithPaging (pagedServer (fun _ => [⟨"dc=x", []⟩]) (fun _ => [7]) 1) 10 3 =
      some (⟨((List.range 2).map (fun _ => [(⟨"dc=x", []⟩ : Entry)])).flatten, [],
             (List.range 2).map (fun i => Control.paging 0 (if i < 1 then [7] else []))⟩,
            (10, []) :: (List.range 1).map (fun _ => (10, [7]))) ∧
     ((10, []) :: (List.range 1).map (fun _ => (10, [7]))).length = 1 + 1) :=
  ⟨by decide, by decide,
   c3_paging_loop (fun _ => [⟨"dc=x", []⟩]) (fun _ => [7]) 1 (by decide) 10 3 (by decide)⟩

/-- Counterexample to C3 as stated: with one non-empty cookie the run
issues exactly the two requests `(size 10, no cookie)` then
`(size 10, cookie [7])` — no request with paging size 0 is ever issued, so
the promised final release request does not happen. -/
theorem c3_paging_loop_counterexample :
    SearchWithPaging (pagedServer (fun _ => []) (fun _ => [7]) 1) 10 3 =
      some (⟨[], [], [Control.paging 0 [7], Control.paging 0 []]⟩, [(10, []), (10, [7])]) ∧
    ∀ pr ∈ [((10 : Nat), ([] : List Nat)), (10, [7])], pr.1 ≠ 0 :=
  ⟨by decide, by decide⟩

/-- Every error of the substring scan carries the filter-compile code. -/
theorem subLoopF_error_code : ∀ (fuel : Nat) (v : List Char) (first : Bool)
    (acc : List BerPacket) (e : LdapError),
    subLoopF fuel v first acc = .error e → e.code = .filterCompile := by
  intro fuel
  induction fuel with
  | zero => intro v first acc e h; cases h; rfl
  | succ m ih =>
    intro v first acc e h
    rw [subLoopF] at h
    rcases hwp : wildPrefix v with _ | p
    · rw [hwp] at h
      try simp only [] at h
      cases first with
      | true =>
        rw [if_pos rfl] at h
        cases h; rfl
      | false =>
        rw [if_neg (by simp)] at h
        split at h <;> cases h
    · rw [hwp] at h
      try simp only [] at h
      by_cases hv2 : List.drop (p.length + 1) v = []
      · rw [if_pos hv2] at h
        cases h
      · rw [if_neg hv2] at h
        exact ih _ _ _ _ h

/-- Every error of the extensible-match encoder carries the filter-compile
code. -/
theorem encodeExtensibleMatch_error_code (a v : String) (e : LdapError)
    (h : encodeExtensibleMatch a v = .error e) : e.code = .filterCompile := by
  unfold encodeExtensibleMatch at h
  rcases hm : extenseMatch a.toList with _ | ⟨rtype, dn, rule⟩
  · rw [hm] at h
    cases h; rfl
  · rw [hm] at h
    try simp only [] at h
    cases h

/-- Every error of `encodeItem` carries the filter-compile code. -/
theorem encodeItem_error_code (a o v : String) (e : LdapError)
    (h : encodeItem a o v = .error e) : e.code = .filterCompile := by
  unfold encodeItem at h
  split at h
  · exact encodeExtensibleMatch_error_code a v e h
  · split at h
    · cases h
    · split at h
      · unfold encodeSubStringMatch at h
        rcases hs : subLoop v.toList true [] with e2 | segs
        · rw [hs] at h
          cases h
          exact subLoopF_error_code _ _ _ _ _ hs
        · rw [hs] at h
          cases h
      · cases h

/-- Every error of the `parse` scan carries the filter-compile code. -/
theorem parseLoopF_error_code : ∀ (fuel : Nat) (f : String) (s : List Char)
    (stack : List BerPacket) (bc : Nat) (e : LdapError),
    parseLoopF f fuel s stack bc = .error e → e.code = .filterCompile := by
  intro fuel
  induction fuel with
  | zero => intro f s stack bc e h; cases h; rfl
  | succ m ih =>
    intro f s stack bc e h
    rw [parseLoopF] at h
    rcases hop : opMatch s with _ | cr
    · rw [hop] at h
      try simp only [] at h
      rcases hend : endMatch s with _ | rest
      · rw [hend] at h
        try simp only [] at h
        rcases hitem : itemMatch s with _ | iov
        · rw [hitem] at h
          try simp only [] at h
          by_cases hs0 : s = []
          · rw [if_pos hs0] at h
            rcases hgl : stack.getLast? with _ | root
            · rw [hgl] at h
              cases h; rfl
            · rw [hgl] at h
              cases h
          · rw [if_neg hs0] at h
            cases h; rfl
        · rw [hitem] at h
          try simp only [] at h
          rcases henc : encodeItem iov.1 iov.2.1 iov.2.2.1 with e2 | item
          · rw [henc] at h
            cases h
            exact encodeItem_error_code _ _ _ _ henc
          · rw [henc] at h
            exact ih _ _ _ _ _ h
      · rw [hend] at h
        try simp only [] at h
        split at h
        · cases h; rfl
        · exact ih _ _ _ _ _ h
    · rw [hop] at h
      try simp only [] at h
      exact ih _ _ _ _ _ h

/-- Every error of `CompileFilter` carries the filter-compile code. -/
theorem CompileFilter_error_code (f : String) (e : LdapError)
    (h : CompileFilter f = .error e) : e.code = .filterCompile := by
  unfold CompileFilter at h
  split at h
  · cases h; rfl
  · split at h
    · cases h; rfl
    · exact parseLoopF_error_code _ _ _ _ _ _ h

/-- **C5** (corrected).  Zero-length input, an input not starting with
`(`, a close parenthesis with no matching open, and unparsed trailing text
each yield a filter-compile error (every `CompileFilter` error carries
that code), and the parse errors carry the offending remainder.  But an
input with *unclosed* open parentheses is not an error: the scan accepts it
and returns the bottom of the stack (see the counterexample), so
"unbalanced parentheses" do not always error. -/
theorem c5_compile_errors :
    (∀ f : String, f.toList.length = 0 →
      CompileFilter f = .error ⟨.filterCompile, "Filter of zero length"⟩) ∧
    (∀ f : String, f.toList.length ≠ 0 → f.toList.head? ≠ some '(' →
      CompileFilter f = .error ⟨.filterCompile, "Filter does not start with '('"⟩) ∧
    (∀ (f : String) (e : LdapError), CompileFilter f = .error e → e.code = .filterCompile) ∧
    CompileFilter "(a=b))" = .error ⟨.filterCompile,
      "Finished compiling filter with extra at end :)"⟩ ∧
    CompileFilter "(a=b)x" = .error ⟨.filterCompile,
      "(a=b)x : Error compiling filter, invalid filter : x"⟩ := by
  refine ⟨?_, ?_, CompileFilter_error_code, by decide, by decide⟩
  · intro f h
    unfold CompileFilter
    rw [if_pos h]
  · intro f h1 h2
    unfold CompileFilter
    rw [if_neg h1, if_pos h2]

/-- Counterexample to C5 as stated: the unbalanced input `(&(a=b)` — one
unclosed open parenthesis — is accepted by `CompileFilter` and yields the
And node, instead of returning an error. -/
theorem c5_compile_errors_counterexample :
    CompileFilter "(&(a=b)" = .ok ⟨ClassContext, TypeConstructed, FilterAnd, .nil,
      [⟨ClassContext, TypeConstructed, FilterEqualityMatch, .nil,
        [berNewString ClassUniversal TypePrimative TagOctetString "a",
         berNewString ClassUniversal TypePrimative TagOctetString "b"]⟩]⟩ := by decide
